import Mathlib

/-!
# Hegel: hardware-source abstraction and endpoint binder

A shallow embedding of `hardware/client.go`, `http-server/http_server.go` and
`http_server.go`, together with the parts of Go's `encoding/json`, `net/http`
and `packethost/pkg/env` these files call, and the properties that hold of them.

Conventions.
* A Go function returning `(T, error)` is an `Except Error T`; a function that can
  also panic returns an `Outcome`.
* Byte slices and Go strings are `String` (there is no ill-formed UTF-8 here).
* `int` is the 64-bit Go `int`.
-/

set_option autoImplicit false

/-! ## Errors -/

/-- Go `error` values: errors made by the libraries, and `errors.Wrap` around a cause. -/
inductive Error where
  /-- an error made outside this program (upstream RPC failure, stream end, dial failure) -/
  | message (text : String)
  /-- `*json.SyntaxError`: the text is not valid JSON -/
  | invalidJSON
  /-- `*json.UnmarshalTypeError`: a JSON value of kind `value` does not fit Go type `goType` -/
  | unmarshalType (value : String) (goType : String)
  /-- `errors.Wrap(cause, message)` -/
  | wrap (cause : Error) (message : String)
deriving DecidableEq, Repr

/-- The result of a call that may return normally, return an error, or panic. -/
inductive Outcome (α : Type) where
  | ok (value : α)
  | error (err : Error)
  | panic (reason : String)
deriving DecidableEq, Repr

namespace json

/-! ## JSON texts -/

/-- A JSON number literal `[-] int [. frac] [e exp]`. -/
structure Number where
  /-- the literal starts with a minus sign -/
  neg : Bool
  /-- the integer part -/
  int : Nat
  /-- the digits after the decimal point, empty when there is no fraction part -/
  frac : List Nat
  /-- the exponent, when there is an exponent part -/
  exp : Option Int
deriving DecidableEq, Repr

/-- A JSON value. Object members are kept in text order, duplicates included. -/
inductive JSON where
  | null
  | bool (b : Bool)
  | number (n : Number)
  | string (s : String)
  | array (items : List JSON)
  | object (members : List (String × JSON))
deriving Repr

/-- JSON white space. -/
def isSpace (c : Char) : Bool :=
  c = ' ' || c = '\t' || c = '\r' || c = '\n'

/-- Drops leading white space. -/
def skipSpace : List Char → List Char
  | [] => []
  | c :: cs => if isSpace c then skipSpace cs else c :: cs

/-- The value of a decimal digit character. -/
def digitValue (c : Char) : Option Nat :=
  if '0' ≤ c ∧ c ≤ '9' then some (c.toNat - '0'.toNat) else none

/-- The value of a hexadecimal digit character. -/
def hexValue (c : Char) : Option Nat :=
  if '0' ≤ c ∧ c ≤ '9' then some (c.toNat - '0'.toNat)
  else if 'a' ≤ c ∧ c ≤ 'f' then some (c.toNat - 'a'.toNat + 10)
  else if 'A' ≤ c ∧ c ≤ 'F' then some (c.toNat - 'A'.toNat + 10)
  else none

/-- Reads the longest run of decimal digits, most significant first. -/
def takeDigits : List Char → List Nat × List Char
  | [] => ([], [])
  | c :: cs =>
    match digitValue c with
    | some d => ((takeDigits cs).1.cons d, (takeDigits cs).2)
    | none => ([], c :: cs)

/-- The number written by a list of decimal digits. -/
def digitsToNat (ds : List Nat) : Nat :=
  ds.foldl (fun acc d => acc * 10 + d) 0

/-- The exponent part of a number literal, if one starts here. -/
def parseExp (cs : List Char) : Option (Option Int × List Char) :=
  match cs with
  | e :: rest =>
    if e = 'e' ∨ e = 'E' then
      match rest with
      | s :: rest1 =>
        if s = '-' then
          match takeDigits rest1 with
          | ([], _) => none
          | (ds, rest2) => some (some (-(digitsToNat ds : Int)), rest2)
        else if s = '+' then
          match takeDigits rest1 with
          | ([], _) => none
          | (ds, rest2) => some (some (digitsToNat ds : Int), rest2)
        else
          match takeDigits rest with
          | ([], _) => none
          | (ds, rest2) => some (some (digitsToNat ds : Int), rest2)
      | [] => none
    else some (none, cs)
  | [] => some (none, cs)

/-- The fraction part of a number literal, if one starts here. -/
def parseFrac (cs : List Char) : Option (List Nat × List Char) :=
  match cs with
  | p :: rest =>
    if p = '.' then
      match takeDigits rest with
      | ([], _) => none
      | (ds, rest1) => some (ds, rest1)
    else some ([], cs)
  | [] => some ([], cs)

/-- The integer part of a number literal: `0`, or digits not starting with `0`. -/
def parseInt (cs : List Char) : Option (Nat × List Char) :=
  match takeDigits cs with
  | ([], _) => none
  | ([d], rest) => some (d, rest)
  | (d :: ds, rest) => if d = 0 then some (0, (cs.drop 1)) else some (digitsToNat (d :: ds), rest)

/-- A number literal after its optional minus sign. -/
def parseUnsigned (neg : Bool) (cs : List Char) : Option (Number × List Char) :=
  match parseInt cs with
  | none => none
  | some (i, rest) =>
    match parseFrac rest with
    | none => none
    | some (f, rest1) =>
      match parseExp rest1 with
      | none => none
      | some (e, rest2) => some (⟨neg, i, f, e⟩, rest2)

/-- A number literal. -/
def parseNumber (cs : List Char) : Option (Number × List Char) :=
  match cs with
  | c :: rest => if c = '-' then parseUnsigned true rest else parseUnsigned false cs
  | [] => none

/-- Four hexadecimal digits. -/
def hex4 (a b c d : Char) : Option Nat :=
  match hexValue a, hexValue b, hexValue c, hexValue d with
  | some x, some y, some z, some w => some (((x * 16 + y) * 16 + z) * 16 + w)
  | _, _, _, _ => none

/-- The character of a one-letter escape. -/
def unescape (c : Char) : Option Char :=
  if c = '"' then some '"'
  else if c = '\\' then some '\\'
  else if c = '/' then some '/'
  else if c = 'b' then some (Char.ofNat 8)
  else if c = 'f' then some (Char.ofNat 12)
  else if c = 'n' then some '\n'
  else if c = 'r' then some '\r'
  else if c = 't' then some '\t'
  else none

/-- Puts U+FFFD before a result when a high surrogate escape is pending that no low
surrogate escape followed. -/
def flush (pending : Option Nat) (r : Option (List Char × List Char)) :
    Option (List Char × List Char) :=
  match pending with
  | some _ => r.map (fun p => (Char.ofNat 0xFFFD :: p.1, p.2))
  | none => r

/-- Puts a character before a result. -/
def emit (c : Char) (r : Option (List Char × List Char)) : Option (List Char × List Char) :=
  r.map (fun p => (c :: p.1, p.2))

/-- The body of a string literal after its opening quote, up to and including the
closing quote. `pending` is a high surrogate escape just read: a low surrogate escape
right after it makes one character with it, anything else leaves it a lone surrogate,
which decodes to U+FFFD, as a lone low surrogate does. -/
def parseChars : Option Nat → List Char → Option (List Char × List Char)
  | _, [] => none
  | pending, c :: rest =>
    if c = '"' then flush pending (some ([], rest))
    else if c = '\\' then
      match rest with
      | [] => none
      | e :: rest1 =>
        if e = 'u' then
          match rest1 with
          | a :: b :: c1 :: d :: rest2 =>
            match hex4 a b c1 d with
            | none => none
            | some n =>
              if 0xD800 ≤ n ∧ n < 0xDC00 then flush pending (parseChars (some n) rest2)
              else if 0xDC00 ≤ n ∧ n < 0xE000 then
                match pending with
                | some hi =>
                  emit (Char.ofNat ((hi - 0xD800) * 1024 + (n - 0xDC00) + 0x10000))
                    (parseChars none rest2)
                | none => emit (Char.ofNat 0xFFFD) (parseChars none rest2)
              else flush pending (emit (Char.ofNat n) (parseChars none rest2))
          | _ => none
        else
          match unescape e with
          | some ch => flush pending (emit ch (parseChars none rest1))
          | none => none
    else if c.toNat < 0x20 then none
    else flush pending (emit c (parseChars none rest))

/-- Expects the given literal text. -/
def expect (lit : List Char) (cs : List Char) : Option (List Char) :=
  if lit.isPrefixOf cs then some (cs.drop lit.length) else none

mutual
/-- A JSON value, with the text that follows it. The fuel bounds the number of
nested calls; the length of the text plus one is always enough. -/
def parseValue : Nat → List Char → Option (JSON × List Char)
  | 0, _ => none
  | fuel + 1, cs =>
    match skipSpace cs with
    | [] => none
    | c :: rest =>
      if c = 'n' then (expect ['u', 'l', 'l'] rest).map (fun r => (JSON.null, r))
      else if c = 't' then (expect ['r', 'u', 'e'] rest).map (fun r => (JSON.bool true, r))
      else if c = 'f' then (expect ['a', 'l', 's', 'e'] rest).map (fun r => (JSON.bool false, r))
      else if c = '"' then
        (parseChars none rest).map (fun r => (JSON.string (String.mk r.1), r.2))
      else if c = '[' then
        match skipSpace rest with
        | [] => none
        | d :: rest1 =>
          if d = ']' then some (JSON.array [], rest1)
          else
            match parseValue fuel (d :: rest1) with
            | none => none
            | some (v, rest2) =>
              match parseItems fuel rest2 with
              | none => none
              | some (vs, rest3) => some (JSON.array (v :: vs), rest3)
      else if c = '\x7b' then
        match skipSpace rest with
        | [] => none
        | d :: rest1 =>
          if d = '\x7d' then some (JSON.object [], rest1)
          else
            match parseMember fuel (d :: rest1) with
            | none => none
            | some (m, rest2) =>
              match parseMembers fuel rest2 with
              | none => none
              | some (ms, rest3) => some (JSON.object (m :: ms), rest3)
      else (parseNumber (c :: rest)).map (fun r => (JSON.number r.1, r.2))
/-- The rest of an array after one of its items: `]`, or `,` and more items. -/
def parseItems : Nat → List Char → Option (List JSON × List Char)
  | 0, _ => none
  | fuel + 1, cs =>
    match skipSpace cs with
    | [] => none
    | c :: rest =>
      if c = ']' then some ([], rest)
      else if c = ',' then
        match parseValue fuel rest with
        | none => none
        | some (v, rest1) =>
          match parseItems fuel rest1 with
          | none => none
          | some (vs, rest2) => some (v :: vs, rest2)
      else none
/-- One object member `"key" : value`. -/
def parseMember : Nat → List Char → Option ((String × JSON) × List Char)
  | 0, _ => none
  | fuel + 1, cs =>
    match skipSpace cs with
    | [] => none
    | q :: rest =>
      if q = '"' then
        match parseChars none rest with
        | none => none
        | some (k, rest1) =>
          match skipSpace rest1 with
          | [] => none
          | colon :: rest2 =>
            if colon = ':' then
              match parseValue fuel rest2 with
              | none => none
              | some (v, rest3) => some ((String.mk k, v), rest3)
            else none
      else none
/-- The rest of an object after one of its members: the closing brace, or `,` and
more members. -/
def parseMembers : Nat → List Char → Option (List (String × JSON) × List Char)
  | 0, _ => none
  | fuel + 1, cs =>
    match skipSpace cs with
    | [] => none
    | c :: rest =>
      if c = '\x7d' then some ([], rest)
      else if c = ',' then
        match parseMember fuel rest with
        | none => none
        | some (m, rest1) =>
          match parseMembers fuel rest1 with
          | none => none
          | some (ms, rest2) => some (m :: ms, rest2)
      else none
end

/-- The JSON value a text denotes: one value, white space around it allowed, nothing
else after it. `none` is a text the decoder rejects with a syntax error. Nesting has no
limit here. -/
def parse (data : String) : Option JSON :=
  match parseValue (data.length + 1) data.data with
  | none => none
  | some (v, rest) => if skipSpace rest = [] then some v else none

/-! ## Decoding into Go values -/

/-- A Go `map[string]T`: at most one entry per key. -/
abbrev Map (α : Type) := List (String × α)

/-- The map with `m[k] = v` set. -/
def Map.insert {α : Type} : Map α → String → α → Map α
  | [], k, v => [(k, v)]
  | e :: es, k, v => if e.1 = k then (k, v) :: es else e :: Map.insert es k v

/-- The entry `m[k]`, if there is one. -/
def Map.get {α : Type} : Map α → String → Option α
  | [], _ => none
  | e :: es, k => if e.1 = k then some e.2 else Map.get es k

/-- The value of a key in the members of an object: that of the last member with the
key, which is the one a Go map ends up with. -/
def lastValue : List (String × JSON) → String → Option JSON
  | [], _ => none
  | e :: es, k =>
    match lastValue es k with
    | some v => some v
    | none => if e.1 = k then some e.2 else none

/-- The first error of a decoding, the one `Unmarshal` returns. -/
def firstError : List Error → Option Error
  | [] => none
  | e :: _ => some e

/-- The kind of a JSON value as `UnmarshalTypeError.Value` names it (the digits of a
number are left out). -/
def JSON.kind : JSON → String
  | JSON.null => "null"
  | JSON.bool _ => "bool"
  | JSON.number _ => "number"
  | JSON.string _ => "string"
  | JSON.array _ => "array"
  | JSON.object _ => "object"

/-- The decimal digits of a number literal, without the point. -/
def Number.mantissa (n : Number) : Nat :=
  n.int * 10 ^ n.frac.length + digitsToNat n.frac

/-- The power of ten that multiplies the mantissa. -/
def Number.exponent (n : Number) : Int :=
  n.exp.getD 0 - n.frac.length

/-- Magnitudes from here on round to infinity: the midpoint between the largest
float64 and `2 ^ 1024`. -/
def float64Limit : Nat := 2 ^ 1024 - 2 ^ 970

/-- Whether `strconv.ParseFloat(s, 64)` succeeds on the literal: it fails only when the
magnitude rounds to infinity. -/
def Number.fitsFloat64 (n : Number) : Bool :=
  if 0 ≤ n.exponent then n.mantissa * 10 ^ n.exponent.toNat < float64Limit
  else n.mantissa < float64Limit * 10 ^ (-n.exponent).toNat

mutual
/-- The errors, in text order, of decoding a value into an `interface{}`: the numbers
that `convertNumber` cannot turn into a float64. -/
def convertErrors : JSON → List Error
  | JSON.number n => if n.fitsFloat64 then [] else [Error.unmarshalType "number" "float64"]
  | JSON.array items => convertErrorsItems items
  | JSON.object members => convertErrorsMembers members
  | _ => []
/-- The errors of the items of an array. -/
def convertErrorsItems : List JSON → List Error
  | [] => []
  | v :: vs => convertErrors v ++ convertErrorsItems vs
/-- The errors of the members of an object. -/
def convertErrorsMembers : List (String × JSON) → List Error
  | [] => []
  | m :: ms => convertErrors m.2 ++ convertErrorsMembers ms
end

mutual
/-- The `interface{}` a value decodes to, written as JSON: `nil` for `null`, a `bool`,
a `float64`, a `string`, a `[]interface{}` or a `map[string]interface{}`. A number that
does not convert leaves `nil`. -/
def valueInterface : JSON → JSON
  | JSON.number n => if n.fitsFloat64 then JSON.number n else JSON.null
  | JSON.array items => JSON.array (valueInterfaceItems items)
  | JSON.object members => JSON.object (valueInterfaceMembers members [])
  | v => v
/-- The items of a decoded array. -/
def valueInterfaceItems : List JSON → List JSON
  | [] => []
  | v :: vs => valueInterface v :: valueInterfaceItems vs
/-- The members of an object stored one by one into a Go map. -/
def valueInterfaceMembers : List (String × JSON) → Map JSON → Map JSON
  | [], m => m
  | e :: es, m => valueInterfaceMembers es (m.insert e.1 (valueInterface e.2))
end

/-- `json.Unmarshal(data, &m)` for `m` a `map[string]interface{}`: the map afterwards
and the error returned. `null` sets the map to nil; an object stores its members, a
later duplicate key replacing an earlier one; any other value is a type error. -/
def UnmarshalMapInterface (data : String) (m : Map JSON) : Map JSON × Option Error :=
  match parse data with
  | none => (m, some Error.invalidJSON)
  | some JSON.null => ([], none)
  | some (JSON.object members) =>
    (valueInterfaceMembers members m, firstError (convertErrorsMembers members))
  | some v => (m, some (Error.unmarshalType v.kind "map[string]interface {}"))

/-- Decoding one value into a Go `string`: the string afterwards and the error saved.
`null` leaves the string as it is. -/
def decodeString (old : String) : JSON → String × List Error
  | JSON.string s => (s, [])
  | JSON.null => (old, [])
  | v => (old, [Error.unmarshalType v.kind "string"])

/-- The members of an object stored one by one into a `map[string]string`; each member
is decoded into a fresh empty string. -/
def stringMembers : List (String × JSON) → Map String → Map String × List Error
  | [], m => (m, [])
  | e :: es, m =>
    let r := stringMembers es (m.insert e.1 (decodeString "" e.2).1)
    (r.1, (decodeString "" e.2).2 ++ r.2)

/-- `json.Unmarshal(data, &m)` for `m` a `map[string]string`. -/
def UnmarshalMapString (data : String) (m : Map String) : Map String × Option Error :=
  match parse data with
  | none => (m, some Error.invalidJSON)
  | some JSON.null => ([], none)
  | some (JSON.object members) => ((stringMembers members m).1, firstError (stringMembers members m).2)
  | some v => (m, some (Error.unmarshalType v.kind "map[string]string"))

/-! ## Structs: decoding and encoding

The struct type `exportedHardwareCacher` is declared outside the files embedded here,
so the encoding of a struct type is a parameter: its JSON fields in declaration order,
as `encoding/json` resolves them (names distinct), each a `string`, a `bool` or an
`int`, which are the types of the fields the tests read. -/

/-- The Go type of a field. -/
inductive Kind where
  | string
  | bool
  | int
deriving DecidableEq, Repr

/-- The value of a field. -/
inductive FieldValue where
  | string (s : String)
  | bool (b : Bool)
  | int (n : Int)
deriving DecidableEq, Repr

/-- One field of a struct type: its JSON name, its type, and whether its tag says
`omitempty`. -/
structure Field where
  name : String
  kind : Kind
  omitEmpty : Bool := false
deriving DecidableEq, Repr

/-- A struct type as the encoder and the decoder see it. `equalFold` is the
case-insensitive comparison of names the decoder falls back on. -/
structure StructType where
  fields : List Field
  equalFold : String → String → Bool

/-- A value of a struct type: the values of its fields, in order. -/
abbrev Struct := List FieldValue

/-- The zero value of a type. -/
def Kind.zero : Kind → FieldValue
  | Kind.string => FieldValue.string ""
  | Kind.bool => FieldValue.bool false
  | Kind.int => FieldValue.int 0

/-- The values a field of a type holds; an `int` is a 64-bit integer. -/
def Kind.holds : Kind → FieldValue → Prop
  | Kind.string, FieldValue.string _ => True
  | Kind.bool, FieldValue.bool _ => True
  | Kind.int, FieldValue.int n => -(2 : Int) ^ 63 ≤ n ∧ n < (2 : Int) ^ 63
  | _, _ => False

instance Kind.decidableHolds (k : Kind) (v : FieldValue) : Decidable (k.holds v) := by
  cases k <;> cases v <;> simp only [Kind.holds] <;> infer_instance

/-- The name of a type in an `UnmarshalTypeError`. -/
def Kind.goName : Kind → String
  | Kind.string => "string"
  | Kind.bool => "bool"
  | Kind.int => "int"

/-- The zero value of a struct type. -/
def StructType.zero (T : StructType) : Struct :=
  T.fields.map (fun f => f.kind.zero)

/-- The values of a struct type: one value for each field, of the type of the field. -/
def StructType.typed (T : StructType) (s : Struct) : Prop :=
  List.Forall₂ (fun f v => f.kind.holds v) T.fields s

/-- The index of the first field that satisfies `p`. -/
def findIndex (p : Field → Bool) : List Field → Option Nat
  | [] => none
  | f :: fs => if p f then some 0 else (findIndex p fs).map (fun i => i + 1)

/-- The field a key of the text decodes into: the field with exactly that name, or
else the first field whose name equals it under case folding. -/
def StructType.findField (T : StructType) (key : String) : Option Nat :=
  match findIndex (fun f => f.name = key) T.fields with
  | some i => some i
  | none => findIndex (fun f => T.equalFold f.name key) T.fields

/-- The `int64` a number literal is, as `strconv.ParseInt(s, 10, 64)` reads it: the
literal has no fraction and no exponent and is in range. -/
def Number.toInt64 (n : Number) : Option Int :=
  if n.frac = [] ∧ n.exp = none then
    if n.neg then
      if n.int ≤ 2 ^ 63 then some (-(n.int : Int)) else none
    else
      if n.int < 2 ^ 63 then some (n.int : Int) else none
  else none

/-- Decoding one value into a field: the field afterwards and the error saved. `null`
and a value of the wrong kind leave the field as it is. -/
def decodeField (kind : Kind) (old : FieldValue) (v : JSON) : FieldValue × List Error :=
  match v with
  | JSON.null => (old, [])
  | JSON.string s =>
    if kind = Kind.string then (FieldValue.string s, [])
    else (old, [Error.unmarshalType "string" kind.goName])
  | JSON.bool b =>
    if kind = Kind.bool then (FieldValue.bool b, [])
    else (old, [Error.unmarshalType "bool" kind.goName])
  | JSON.number n =>
    if kind = Kind.int then
      match n.toInt64 with
      | some i => (FieldValue.int i, [])
      | none => (old, [Error.unmarshalType "number" kind.goName])
    else (old, [Error.unmarshalType "number" kind.goName])
  | JSON.array _ => (old, [Error.unmarshalType "array" kind.goName])
  | JSON.object _ => (old, [Error.unmarshalType "object" kind.goName])

/-- Decoding one member into a struct: a key that finds no field is skipped. -/
def structMember (T : StructType) (e : String × JSON) (s : Struct) : Struct × List Error :=
  match T.findField e.1 with
  | none => (s, [])
  | some i =>
    match T.fields.get? i, s.get? i with
    | some f, some old => (s.set i (decodeField f.kind old e.2).1, (decodeField f.kind old e.2).2)
    | _, _ => (s, [])

/-- The members of an object decoded one by one into a struct. -/
def structMembers (T : StructType) : List (String × JSON) → Struct → Struct × List Error
  | [], s => (s, [])
  | e :: es, s =>
    let r := structMembers T es (structMember T e s).1
    (r.1, (structMember T e s).2 ++ r.2)

/-- `json.Unmarshal(data, &s)` for `s` of struct type `T`: the struct afterwards and the
error returned. `null` leaves the struct as it is; any value but an object is a type
error. -/
def UnmarshalStruct (T : StructType) (data : String) (s : Struct) : Struct × Option Error :=
  match parse data with
  | none => (s, some Error.invalidJSON)
  | some JSON.null => (s, none)
  | some (JSON.object members) =>
    ((structMembers T members s).1, firstError (structMembers T members s).2)
  | some v => (s, some (Error.unmarshalType v.kind "struct"))

/-- A hexadecimal digit, lower case. -/
def hexDigit (n : Nat) : Char :=
  if n < 10 then Char.ofNat (48 + n) else Char.ofNat (87 + n)

/-- One character of a string as the encoder writes it, with HTML escaping, the
default of `json.Marshal`; control characters other than `\n`, `\r` and `\t` are
written as `\u00XX`. -/
def escapeChar (c : Char) : List Char :=
  if c = '"' then ['\\', '"']
  else if c = '\\' then ['\\', '\\']
  else if c = '\n' then ['\\', 'n']
  else if c = '\r' then ['\\', 'r']
  else if c = '\t' then ['\\', 't']
  else if c.toNat < 0x20 ∨ c = '<' ∨ c = '>' ∨ c = '&' then
    ['\\', 'u', '0', '0', hexDigit (c.toNat / 16), hexDigit (c.toNat % 16)]
  else if c.toNat = 0x2028 then ['\\', 'u', '2', '0', '2', '8']
  else if c.toNat = 0x2029 then ['\\', 'u', '2', '0', '2', '9']
  else [c]

/-- The characters of a string, escaped. -/
def escapeChars : List Char → List Char
  | [] => []
  | c :: cs => escapeChar c ++ escapeChars cs

/-- A string literal. -/
def encodeString (s : String) : List Char :=
  '"' :: (escapeChars s.data ++ ['"'])

/-- The decimal digits of a natural number below `10 ^ fuel`, most significant first. -/
def natDigits : Nat → Nat → List Char
  | 0, _ => []
  | fuel + 1, n =>
    if n < 10 then [Char.ofNat (48 + n)]
    else natDigits fuel (n / 10) ++ [Char.ofNat (48 + n % 10)]

/-- A natural number in decimal. -/
def encodeNat (n : Nat) : List Char :=
  natDigits (n + 1) n

/-- An integer in decimal. -/
def encodeInt (n : Int) : List Char :=
  if n < 0 then '-' :: encodeNat n.natAbs else encodeNat n.natAbs

/-- The value of a field as the encoder writes it. -/
def encodeValue : FieldValue → List Char
  | FieldValue.string s => encodeString s
  | FieldValue.bool true => ['t', 'r', 'u', 'e']
  | FieldValue.bool false => ['f', 'a', 'l', 's', 'e']
  | FieldValue.int n => encodeInt n

/-- The empty values, which `omitempty` leaves out: `""`, `false` and `0`. -/
def FieldValue.isEmpty : FieldValue → Bool
  | FieldValue.string s => s = ""
  | FieldValue.bool b => !b
  | FieldValue.int n => n = 0

/-- The fields the encoder writes, with their values: every field but the empty ones
tagged `omitempty`. -/
def emitted : List Field → Struct → List (Field × FieldValue)
  | f :: fs, v :: vs =>
    if f.omitEmpty && v.isEmpty then emitted fs vs else (f, v) :: emitted fs vs
  | _, _ => []

/-- One member `"name":value`. -/
def encodeMember (m : Field × FieldValue) : List Char :=
  encodeString m.1.name ++ (':' :: encodeValue m.2)

/-- The members after the first, each after a comma, and the closing brace. -/
def encodeTail : List (Field × FieldValue) → List Char
  | [] => ['\x7d']
  | m :: ms => ',' :: (encodeMember m ++ encodeTail ms)

/-- The text of an object with the given members. -/
def encodeObject : List (Field × FieldValue) → List Char
  | [] => ['\x7b', '\x7d']
  | m :: ms => '\x7b' :: (encodeMember m ++ encodeTail ms)

/-- `json.Marshal(s)` for `s` of struct type `T`. No value of these field types fails
to encode. -/
def MarshalStruct (T : StructType) (s : Struct) : Except Error String :=
  Except.ok (String.mk (encodeObject (emitted T.fields s)))

/-- The JSON value of a field value. -/
def FieldValue.toJSON : FieldValue → JSON
  | FieldValue.string s => JSON.string s
  | FieldValue.bool b => JSON.bool b
  | FieldValue.int n => JSON.number ⟨decide (n < 0), n.natAbs, [], none⟩

end json

/-! ## Configuration -/

namespace env

/-- The process environment: the value of each variable that is set. -/
abbrev Environ := String → Option String

/-- `os.Getenv`: the empty string for a variable that is not set. -/
def Getenv (environ : Environ) (name : String) : String :=
  (environ name).getD ""

/-- `env.Get(name, def...)` of `packethost/pkg/env`: the value of the variable, or the
first default when the variable is unset or empty, or the empty string. -/
def Get (environ : Environ) (name : String) (defaults : List String) : String :=
  if Getenv environ name ≠ "" then Getenv environ name
  else
    match defaults with
    | [] => ""
    | d :: _ => d

end env

/-! ## The upstream services -/

/-- `io.EOF`, what a stream returns once the upstream has closed it. -/
def io.EOF : Error := Error.message "EOF"

namespace cacher

/-- `cacher.Hardware`: one record of the Legacy upstream, an opaque JSON document. -/
structure Hardware where
  JSON : String
deriving DecidableEq, Repr

/-- `cacher.GetRequest`. -/
structure GetRequest where
  MAC : String := ""
  IP : String := ""
  ID : String := ""
deriving DecidableEq, Repr

/-- `cacher.Cacher_WatchClient`: a server stream, as the events the upstream has yet
to deliver on it. -/
structure Cacher_WatchClient where
  events : List (Except Error Hardware)

/-- `Recv` on the upstream stream: the next event, and the stream after it. A stream
with nothing left returns `io.EOF`. -/
def Cacher_WatchClient.Recv (c : Cacher_WatchClient) :
    Except Error Hardware × Cacher_WatchClient :=
  match c.events with
  | [] => (Except.error io.EOF, c)
  | e :: es => (e, ⟨es⟩)

/-- `cacher.CacherClient`: the two calls of the Legacy upstream this program makes. -/
structure CacherClient where
  ByIP : GetRequest → Except Error Hardware
  Watch : GetRequest → Except Error Cacher_WatchClient

end cacher

namespace tink

/-- `tink.Hardware`: one record of the Current upstream, with typed attributes. -/
structure Hardware where
  Id : String
  Metadata : String := ""
deriving DecidableEq, Repr

/-- `tink.GetRequest`. -/
structure GetRequest where
  Mac : String := ""
  Ip : String := ""
  Id : String := ""
deriving DecidableEq, Repr

/-- `tink.HardwareService_WatchClient`: a server stream, as the events the upstream has
yet to deliver on it. -/
structure HardwareService_WatchClient where
  events : List (Except Error Hardware)

/-- `Recv` on the upstream stream: the next event, and the stream after it. A stream
with nothing left returns `io.EOF`. -/
def HardwareService_WatchClient.Recv (c : HardwareService_WatchClient) :
    Except Error Hardware × HardwareService_WatchClient :=
  match c.events with
  | [] => (Except.error io.EOF, c)
  | e :: es => (e, ⟨es⟩)

/-- `tink.HardwareServiceClient`: the two calls of the Current upstream this program
makes. -/
structure HardwareServiceClient where
  ByIP : GetRequest → Except Error Hardware
  Watch : GetRequest → Except Error HardwareService_WatchClient

end tink

/-! ## Package `hardware` (`hardware/client.go`) -/

namespace hardware

/-- The package variables `dataModelVersion` and `facility`. -/
structure Vars where
  dataModelVersion : String
  facility : String
deriving DecidableEq, Repr

/-- The package variables as the process sets them at start: `dataModelVersion` is the
environment variable `DATA_MODEL_VERSION`; `facility` is the `-facility` flag, whose
default is the environment variable `HEGEL_FACILITY`, or `onprem`. -/
def vars (environ : env.Environ) (flag : Option String) : Vars where
  dataModelVersion := env.Get environ "DATA_MODEL_VERSION" []
  facility := flag.getD (env.Get environ "HEGEL_FACILITY" ["onprem"])

structure clientCacher where
  client : cacher.CacherClient

structure clientTinkerbell where
  client : tink.HardwareServiceClient

structure hardwareCacher where
  hardware : cacher.Hardware
deriving DecidableEq, Repr

structure hardwareTinkerbell where
  hardware : tink.Hardware
deriving DecidableEq, Repr

structure watcherCacher where
  client : cacher.Cacher_WatchClient

structure watcherTinkerbell where
  client : tink.HardwareService_WatchClient

/-- The interface `Client`: one of the two adapters. -/
inductive Client where
  | cacher (hg : clientCacher)
  | tinkerbell (hg : clientTinkerbell)

/-- The interface `Hardware`: a record of one of the two flavors. -/
inductive Hardware where
  | cacher (hw : hardwareCacher)
  | tinkerbell (hw : hardwareTinkerbell)
deriving DecidableEq, Repr

/-- The interface `Watcher`: a subscription of one of the two flavors. -/
inductive Watcher where
  | cacher (w : watcherCacher)
  | tinkerbell (w : watcherTinkerbell)

/-- `New`: the adapter chosen by `dataModelVersion`. `TinkHardwareClient` and
`cacherClientNew` are the constructors of the two upstream clients. -/
def New (v : Vars) (TinkHardwareClient : Except Error tink.HardwareServiceClient)
    (cacherClientNew : String → Except Error cacher.CacherClient) : Except Error Client :=
  if v.dataModelVersion = "1" then
    match TinkHardwareClient with
    | Except.error err => Except.error (Error.wrap err "failed to create the tink client")
    | Except.ok tc => Except.ok (Client.tinkerbell ⟨tc⟩)
  else
    match cacherClientNew v.facility with
    | Except.error err => Except.error (Error.wrap err "failed to create the cacher client")
    | Except.ok cc => Except.ok (Client.cacher ⟨cc⟩)

/-- `clientCacher.ByIP`. -/
def clientCacher.ByIP (hg : clientCacher) (ip : String) : Except Error Hardware :=
  match hg.client.ByIP { IP := ip } with
  | Except.error err => Except.error err
  | Except.ok hw => Except.ok (Hardware.cacher ⟨hw⟩)

/-- `clientCacher.Watch`. -/
def clientCacher.Watch (hg : clientCacher) (id : String) : Except Error Watcher :=
  match hg.client.Watch { ID := id } with
  | Except.error err => Except.error err
  | Except.ok w => Except.ok (Watcher.cacher ⟨w⟩)

/-- `clientTinkerbell.ByIP`. -/
def clientTinkerbell.ByIP (hg : clientTinkerbell) (ip : String) : Except Error Hardware :=
  match hg.client.ByIP { Ip := ip } with
  | Except.error err => Except.error err
  | Except.ok hw => Except.ok (Hardware.tinkerbell ⟨hw⟩)

/-- `clientTinkerbell.Watch`. -/
def clientTinkerbell.Watch (hg : clientTinkerbell) (id : String) : Except Error Watcher :=
  match hg.client.Watch { Id := id } with
  | Except.error err => Except.error err
  | Except.ok w => Except.ok (Watcher.tinkerbell ⟨w⟩)

/-- `Client.ByIP` through the interface. -/
def Client.ByIP : Client → String → Except Error Hardware
  | Client.cacher hg, ip => hg.ByIP ip
  | Client.tinkerbell hg, ip => hg.ByIP ip

/-- The dynamic type of a decoded `interface{}`, as a failed type assertion prints it. -/
def dynamicType : Option json.JSON → String
  | none => "nil"
  | some json.JSON.null => "nil"
  | some (json.JSON.bool _) => "bool"
  | some (json.JSON.number _) => "float64"
  | some (json.JSON.string _) => "string"
  | some (json.JSON.array _) => "[]interface {}"
  | some (json.JSON.object _) => "map[string]interface {}"

/-- `hardwareCacher.ID`: what the call does, and the record after it (the method has a
pointer receiver and assigns nothing through it). The unchecked assertion
`hwID.(string)` panics when `hwJSON["id"]` is not a string. -/
def hardwareCacher.ID (hw : hardwareCacher) : Outcome String × hardwareCacher :=
  match json.UnmarshalMapInterface hw.hardware.JSON [] with
  | (_, some err) => (Outcome.error err, hw)
  | (hwJSON, none) =>
    match hwJSON.get "id" with
    | some (json.JSON.string id) => (Outcome.ok id, hw)
    | hwID =>
      (Outcome.panic ("interface conversion: interface {} is " ++ dynamicType hwID ++ ", not string"), hw)

/-- `hardwareCacher.Export`. The struct type `exportedHardwareCacher` is declared in
another file of the package and is a parameter here. -/
def hardwareCacher.Export (exportedHardwareCacher : json.StructType) (hw : hardwareCacher) :
    Except Error String :=
  match json.UnmarshalStruct exportedHardwareCacher hw.hardware.JSON exportedHardwareCacher.zero with
  | (_, some err) => Except.error err
  | (exported, none) => json.MarshalStruct exportedHardwareCacher exported

/-- `hardwareTinkerbell.ID`: what the call does, and the record after it. -/
def hardwareTinkerbell.ID (hw : hardwareTinkerbell) : Outcome String × hardwareTinkerbell :=
  (Outcome.ok hw.hardware.Id, hw)

/-- `Hardware.ID` through the interface. -/
def Hardware.ID : Hardware → Outcome String × Hardware
  | Hardware.cacher hw => ((hw.ID).1, Hardware.cacher (hw.ID).2)
  | Hardware.tinkerbell hw => ((hw.ID).1, Hardware.tinkerbell (hw.ID).2)

/-- `watcherCacher.Recv`: what the call returns, and the subscription after it. -/
def watcherCacher.Recv (w : watcherCacher) : Except Error Hardware × watcherCacher :=
  match w.client.Recv with
  | (Except.error err, client) => (Except.error err, ⟨client⟩)
  | (Except.ok hw, client) => (Except.ok (Hardware.cacher ⟨hw⟩), ⟨client⟩)

/-- `watcherTinkerbell.Recv`: what the call returns, and the subscription after it. -/
def watcherTinkerbell.Recv (w : watcherTinkerbell) : Except Error Hardware × watcherTinkerbell :=
  match w.client.Recv with
  | (Except.error err, client) => (Except.error err, ⟨client⟩)
  | (Except.ok hw, client) => (Except.ok (Hardware.tinkerbell ⟨hw⟩), ⟨client⟩)

/-- `Watcher.Recv` through the interface. -/
def Watcher.Recv : Watcher → Except Error Hardware × Watcher
  | Watcher.cacher w => ((w.Recv).1, Watcher.cacher (w.Recv).2)
  | Watcher.tinkerbell w => ((w.Recv).1, Watcher.tinkerbell (w.Recv).2)

/-- What a subscription has yet to deliver: the events of its upstream stream, in
upstream order, a record as a record of the flavor of the adapter around it, a failure
as that same error. -/
def Watcher.upstream : Watcher → List (Except Error Hardware)
  | Watcher.cacher w =>
    w.client.events.map (fun ev =>
      match ev with
      | Except.ok hw => Except.ok (Hardware.cacher ⟨hw⟩)
      | Except.error err => Except.error err)
  | Watcher.tinkerbell w =>
    w.client.events.map (fun ev =>
      match ev with
      | Except.ok hw => Except.ok (Hardware.tinkerbell ⟨hw⟩)
      | Except.error err => Except.error err)

/-- The results of the first `n` calls to `Recv` on a subscription, in call order. -/
def Watcher.recvs : Nat → Watcher → List (Except Error Hardware)
  | 0, _ => []
  | n + 1, w => (w.Recv).1 :: Watcher.recvs n (w.Recv).2

end hardware

/-! ## The router (`net/http`) -/

namespace http

/-- The handlers this program installs. Only the identity of a handler matters here:
which function it is and, for a custom endpoint, the selector it is closed over. -/
inductive Handler where
  /-- `promhttp.Handler()` -/
  | metrics
  | healthCheckHandler
  | versionHandler
  | ec2Handler
  /-- `getMetadata(filter)`: the handler of a custom endpoint, closed over its selector -/
  | getMetadata (filter : String)
deriving DecidableEq, Repr

/-- `http.ServeMux`: the registered patterns with their handlers. -/
structure ServeMux where
  m : json.Map Handler
deriving DecidableEq, Repr

/-- `mux.Handle(pattern, handler)` and `mux.HandleFunc(pattern, handler)`: panic on an
empty pattern and on a pattern that is registered already. This is the router of the
Go releases before 1.22, in which a pattern is a plain string. -/
def ServeMux.Handle (mux : ServeMux) (pattern : String) (handler : Handler) : Outcome ServeMux :=
  if pattern = "" then Outcome.panic "http: invalid pattern"
  else if (mux.m.get pattern).isSome then
    Outcome.panic ("http: multiple registrations for " ++ pattern)
  else Outcome.ok ⟨mux.m ++ [(pattern, handler)]⟩

end http

/-! ## Package `httpserver` (`http-server/http_server.go`) -/

namespace httpserver

/-- The loop `for endpoint, filter := range endpoints` of `registerCustomEndpoints`,
over the entries in the order the runtime yields them: the router afterwards. -/
def registerEndpoints : List (String × String) → http.ServeMux → Outcome http.ServeMux
  | [], mux => Outcome.ok mux
  | e :: es, mux =>
    match mux.Handle e.1 (http.Handler.getMetadata e.2) with
    | Outcome.ok mux1 => registerEndpoints es mux1
    | Outcome.error err => Outcome.error err
    | Outcome.panic reason => Outcome.panic reason

/-- `registerCustomEndpoints`: the router afterwards and the error returned, or a
panic. `mux` is `none` for a nil argument, which stands for `http.DefaultServeMux`.
`range` is the order in which the runtime iterates over a map, which Go leaves
unspecified. -/
def registerCustomEndpoints (environ : env.Environ) (DefaultServeMux : http.ServeMux)
    (range : json.Map String → List (String × String)) (mux : Option http.ServeMux) :
    Outcome (http.ServeMux × Option Error) :=
  let customEndpoints :=
    env.Get environ "CUSTOM_ENDPOINTS" ["\x7b\"/metadata\":\".metadata\"\x7d"]
  let mux := mux.getD DefaultServeMux
  match json.UnmarshalMapString customEndpoints [] with
  | (_, some err) => Outcome.ok (mux, some (Error.wrap err "error in parsing custom endpoints"))
  | (endpoints, none) =>
    match registerEndpoints (range endpoints) mux with
    | Outcome.ok mux1 => Outcome.ok (mux1, none)
    | Outcome.error err => Outcome.error err
    | Outcome.panic reason => Outcome.panic reason

/-- The router `Serve` builds before it registers the custom endpoints. -/
def fixedRoutes : http.ServeMux :=
  ⟨[("/metrics", http.Handler.metrics),
    ("/_packet/healthcheck", http.Handler.healthCheckHandler),
    ("/_packet/version", http.Handler.versionHandler),
    ("/2009-04-04", http.Handler.ec2Handler),
    ("/2009-04-04/", http.Handler.ec2Handler)]⟩

/-- `Serve`, up to the router it serves: the fixed routes, then the custom endpoints.
An error of `registerCustomEndpoints` is fatal: `l.Fatal` ends the process, which is
the `error` outcome here. -/
def Serve (environ : env.Environ) (DefaultServeMux : http.ServeMux)
    (range : json.Map String → List (String × String)) : Outcome http.ServeMux :=
  match registerCustomEndpoints environ DefaultServeMux range (some fixedRoutes) with
  | Outcome.ok (_, some err) => Outcome.error err
  | Outcome.ok (mux, none) => Outcome.ok mux
  | Outcome.error err => Outcome.error err
  | Outcome.panic reason => Outcome.panic reason

end httpserver

/-! ## Caller identity

The middleware that reads `X-Forwarded-For` is outside the files embedded here; the
resolver below follows the specification of the caller resolver. What comes from
`http_server.go` is the gate: the middleware is installed only when there is at least
one trusted proxy. -/

namespace xff

/-- Modelled from the spec: an IP address, IPv4 or IPv6, as a number. The addresses of
a request (its direct peer, the entries of `X-Forwarded-For`) are parsed already. -/
structure IP where
  v6 : Bool
  addr : Nat
deriving DecidableEq, Repr

/-- Modelled from the spec: a CIDR range, `ones` leading bits of `base`. -/
structure CIDR where
  v6 : Bool
  base : Nat
  ones : Nat
deriving DecidableEq, Repr

/-- Modelled from the spec: whether the range contains the address. -/
def CIDR.contains (c : CIDR) (ip : IP) : Bool :=
  let width := if c.v6 then 128 else 32
  c.v6 = ip.v6 && ip.addr / 2 ^ (width - c.ones) = c.base / 2 ^ (width - c.ones)

/-- Modelled from the spec: the TrustedProxySet, an ordered set of IP ranges. -/
abbrev TrustedProxySet := List CIDR

/-- Modelled from the spec: an IP contained in the set is a trusted relay. -/
def TrustedProxySet.trusts (set : TrustedProxySet) (ip : IP) : Bool :=
  set.any (fun c => c.contains ip)

/-- Modelled from the spec: the walk over the `X-Forwarded-For` chain from right
(closest proxy) to left (original client), skipping the trusted IPs; the first IP that
is not trusted, if there is one. The chain is given in header order. -/
def walk (set : TrustedProxySet) (chain : List IP) : Option IP :=
  chain.reverse.find? (fun ip => !set.trusts ip)

/-- Modelled from the spec: the caller resolver. A direct peer outside the set is the
caller; otherwise the first IP of the walk that is not trusted is, and the direct peer
when the walk finds none. -/
def resolve (set : TrustedProxySet) (peer : IP) (chain : List IP) : IP :=
  if set.trusts peer then (walk set chain).getD peer else peer

end xff

/-! ## Package `main` (`http_server.go`) -/

/-- The handler `ServeHTTP` serves: the router behind the forwarding middleware, or
the router as it is. -/
inductive Served where
  /-- `xffmw.Handler(mux)` for the middleware made with `AllowedSubnets` -/
  | forwarded (AllowedSubnets : xff.TrustedProxySet)
  /-- `mux` -/
  | direct
deriving DecidableEq, Repr

/-- `ServeHTTP`, up to the handler it serves: the forwarding middleware is installed
only when `len(gxff.TrustedProxies) > 0`. -/
def ServeHTTP (TrustedProxies : xff.TrustedProxySet) : Served :=
  if TrustedProxies.length > 0 then Served.forwarded TrustedProxies else Served.direct

/-- The caller identity the endpoint handlers see behind a served handler: what the
resolver makes of the request behind the middleware, the direct peer without it. -/
def Served.callerIdentity : Served → xff.IP → List xff.IP → xff.IP
  | Served.forwarded set, peer, chain => xff.resolve set peer chain
  | Served.direct, peer, _ => peer

/-- The caller identity the endpoint handlers see for a request with the given direct
peer and `X-Forwarded-For` chain. -/
def callerIdentity (TrustedProxies : xff.TrustedProxySet) (peer : xff.IP) (chain : List xff.IP) :
    xff.IP :=
  (ServeHTTP TrustedProxies).callerIdentity peer chain

/-! ## Sample data -/

namespace sample

/-- A Legacy record with the values of the handler test, and a member `name` that is
no field of the projection type. -/
def cacherRecord : cacher.Hardware :=
  ⟨"\x7b\"id\":\"8978e7d4-1a55-4845-8a66-a5259236b104\",\"arch\":\"x86_64\",\"state\":\"provisioning\",\"efi_boot\":false,\"plan_slug\":\"t1.small.x86\",\"facility\":\"onprem\",\"bonding_mode\":4,\"name\":\"node-1\"\x7d"⟩

/-- A Current record. -/
def tinkRecord : tink.Hardware :=
  { Id := "fde7c87c-d154-447e-9fce-7eb7bdec90c0" }

/-- An upstream failure. -/
def notFound : Error := Error.message "rpc error: code = NotFound"

/-- A Legacy upstream that knows one host. -/
def cacherClient : cacher.CacherClient where
  ByIP := fun req => if req.IP = "192.168.1.5" then Except.ok cacherRecord else Except.error notFound
  Watch := fun _ => Except.ok ⟨[Except.ok cacherRecord, Except.error io.EOF]⟩

/-- A Current upstream that knows one host. -/
def tinkClient : tink.HardwareServiceClient where
  ByIP := fun req => if req.Ip = "192.168.1.5" then Except.ok tinkRecord else Except.error notFound
  Watch := fun _ => Except.ok ⟨[Except.ok tinkRecord, Except.error io.EOF]⟩

/-- Comparison of names without regard to the case of ASCII letters. -/
def equalFold (a b : String) : Bool :=
  a.data.map Char.toLower = b.data.map Char.toLower

/-- A struct type with the fields the handler tests read, and one more that is left
out when empty. -/
def exportedHardwareCacher : json.StructType where
  fields :=
    [{ name := "id", kind := json.Kind.string },
     { name := "arch", kind := json.Kind.string },
     { name := "state", kind := json.Kind.string },
     { name := "efi_boot", kind := json.Kind.bool },
     { name := "plan_slug", kind := json.Kind.string },
     { name := "facility", kind := json.Kind.string },
     { name := "hostname", kind := json.Kind.string },
     { name := "bonding_mode", kind := json.Kind.int },
     { name := "comment", kind := json.Kind.string, omitEmpty := true }]
  equalFold := equalFold

/-- What `Export` returns on that Legacy record. -/
def exported : String :=
  "\x7b\"id\":\"8978e7d4-1a55-4845-8a66-a5259236b104\",\"arch\":\"x86_64\",\"state\":\"provisioning\",\"efi_boot\":false,\"plan_slug\":\"t1.small.x86\",\"facility\":\"onprem\",\"hostname\":\"\",\"bonding_mode\":4\x7d"

/-- An environment in which only `CUSTOM_ENDPOINTS` is set. -/
def customEndpoints (value : String) : env.Environ :=
  fun name => if name = "CUSTOM_ENDPOINTS" then some value else none

/-- An IPv4 address. -/
def ip4 (a b c d : Nat) : xff.IP :=
  ⟨false, ((a * 256 + b) * 256 + c) * 256 + d⟩

/-- The range `10.0.0.0/8`. -/
def net10 : xff.CIDR :=
  ⟨false, 10 * 2 ^ 24, 8⟩

end sample

/-! # Properties -/

open json

/-! ## Maps -/

theorem Map.get_insert {α : Type} (m : Map α) (k k' : String) (v : α) :
    (m.insert k v).get k' = if k = k' then some v else m.get k' := by
  induction m with
  | nil => simp [Map.insert, Map.get]
  | cons e es ih =>
    simp only [Map.insert]
    by_cases h : e.1 = k
    · simp only [h, if_true, Map.get]
      by_cases h' : k = k' <;> simp [h']
    · simp only [h, if_false, Map.get, ih]
      by_cases h' : k = k'
      · subst h'; simp [h]
      · simp [h']

theorem valueInterface_eq_string (v : JSON) (s : String) :
    valueInterface v = JSON.string s ↔ v = JSON.string s := by
  cases v with
  | number n => simp only [valueInterface]; split <;> simp
  | _ => simp [valueInterface]

theorem get_valueInterfaceMembers (members : List (String × JSON)) (m : Map JSON) (k : String) :
    (valueInterfaceMembers members m).get k =
      match lastValue members k with
      | some v => some (valueInterface v)
      | none => m.get k := by
  induction members generalizing m with
  | nil => simp [valueInterfaceMembers, lastValue]
  | cons e es ih =>
    simp only [valueInterfaceMembers, lastValue, ih]
    cases h : lastValue es k with
    | some v => simp
    | none =>
      simp only [Map.get_insert]
      by_cases h' : e.1 = k <;> simp [h']

/-! ## The backend selector -/

namespace hardware

/-- C1: whenever `New` succeeds, the client it returns is the Current (Tinkerbell) one
exactly when `dataModelVersion` is the string `1`; for every other value it is the
Legacy (Cacher) client that `cacherClient.New` built from the configured facility. -/
theorem New_selects_adapter (v : Vars)
    (TinkHardwareClient : Except Error tink.HardwareServiceClient)
    (cacherClientNew : String → Except Error cacher.CacherClient) (c : Client)
    (h : New v TinkHardwareClient cacherClientNew = Except.ok c) :
    ((∃ tc, c = Client.tinkerbell ⟨tc⟩) ↔ v.dataModelVersion = "1") ∧
    (v.dataModelVersion = "1" →
      ∃ tc, TinkHardwareClient = Except.ok tc ∧ c = Client.tinkerbell ⟨tc⟩) ∧
    (v.dataModelVersion ≠ "1" →
      ∃ cc, cacherClientNew v.facility = Except.ok cc ∧ c = Client.cacher ⟨cc⟩) := by
  unfold New at h
  by_cases hv : v.dataModelVersion = "1"
  · simp only [hv, if_true] at h
    cases ht : TinkHardwareClient with
    | error e => rw [ht] at h; cases h
    | ok tc =>
      rw [ht] at h
      injection h with h
      subst h
      exact ⟨⟨fun _ => hv, fun _ => ⟨tc, rfl⟩⟩, fun _ => ⟨tc, rfl, rfl⟩, fun hne => absurd hv hne⟩
  · simp only [hv, if_false] at h
    cases hc : cacherClientNew v.facility with
    | error e => rw [hc] at h; cases h
    | ok cc =>
      rw [hc] at h
      injection h with h
      subst h
      refine ⟨⟨?_, fun h1 => absurd h1 hv⟩, fun h1 => absurd h1 hv, fun _ => ⟨cc, rfl, rfl⟩⟩
      rintro ⟨tc, htc⟩
      cases htc

/-- C1, in three environments: with `DATA_MODEL_VERSION` set to `01`, and with
`DATA_MODEL_VERSION` unset, the client is the Legacy one built for the facility
`onprem`; with `DATA_MODEL_VERSION` set to `1` it is the Current one. -/
theorem New_selects_adapter_witness :
    (New (vars (fun name => if name = "DATA_MODEL_VERSION" then some "01" else none) none)
        (Except.ok sample.tinkClient)
        (fun f => if f = "onprem" then Except.ok sample.cacherClient else Except.error sample.notFound)
      = Except.ok (Client.cacher ⟨sample.cacherClient⟩)) ∧
    ((∃ tc, Client.cacher ⟨sample.cacherClient⟩ = Client.tinkerbell ⟨tc⟩) ↔ "01" = "1") ∧
    (New (vars (fun _ => none) none) (Except.ok sample.tinkClient)
        (fun f => if f = "onprem" then Except.ok sample.cacherClient else Except.error sample.notFound)
      = Except.ok (Client.cacher ⟨sample.cacherClient⟩)) ∧
    (New (vars (fun name => if name = "DATA_MODEL_VERSION" then some "1" else none) none)
        (Except.ok sample.tinkClient) (fun _ => Except.error sample.notFound)
      = Except.ok (Client.tinkerbell ⟨sample.tinkClient⟩)) ∧
    ((∃ tc, Client.tinkerbell ⟨sample.tinkClient⟩ = Client.tinkerbell ⟨tc⟩) ↔ "1" = "1") :=
  ⟨rfl,
    (New_selects_adapter
      (vars (fun name => if name = "DATA_MODEL_VERSION" then some "01" else none) none)
      (Except.ok sample.tinkClient)
      (fun f => if f = "onprem" then Except.ok sample.cacherClient else Except.error sample.notFound)
      (Client.cacher ⟨sample.cacherClient⟩) rfl).1,
    rfl, rfl,
    (New_selects_adapter
      (vars (fun name => if name = "DATA_MODEL_VERSION" then some "1" else none) none)
      (Except.ok sample.tinkClient)
      (fun _ => Except.error sample.notFound) (Client.tinkerbell ⟨sample.tinkClient⟩) rfl).1⟩

/-! ## Record identifiers -/

/-- C2: on a Legacy record whose document has no `id`, or an `id` that is not a
string, or is `null`, `ID` panics in the unchecked assertion `hwID.(string)`; it
returns an error only when `json.Unmarshal` fails, which a number too large for a
float64 anywhere in the document makes it do; it returns the `id` when that is a
string. -/
theorem hardwareCacher_ID_panics :
    (hardwareCacher.ID ⟨⟨"\x7b\x7d"⟩⟩).1
      = Outcome.panic "interface conversion: interface {} is nil, not string" ∧
    (hardwareCacher.ID ⟨⟨"\x7b\"id\": 5\x7d"⟩⟩).1
      = Outcome.panic "interface conversion: interface {} is float64, not string" ∧
    (hardwareCacher.ID ⟨⟨"\x7b\"id\": null\x7d"⟩⟩).1
      = Outcome.panic "interface conversion: interface {} is nil, not string" ∧
    (hardwareCacher.ID ⟨⟨"\x7b\"id\": [\"a\"]\x7d"⟩⟩).1
      = Outcome.panic "interface conversion: interface {} is []interface {}, not string" ∧
    (hardwareCacher.ID ⟨⟨"null"⟩⟩).1
      = Outcome.panic "interface conversion: interface {} is nil, not string" ∧
    (hardwareCacher.ID ⟨⟨"[1]"⟩⟩).1
      = Outcome.error (Error.unmarshalType "array" "map[string]interface {}") ∧
    (hardwareCacher.ID ⟨⟨"\x7b\"id\": \"a\", \"n\": 1e999\x7d"⟩⟩).1
      = Outcome.error (Error.unmarshalType "number" "float64") ∧
    (hardwareCacher.ID ⟨⟨"\x7b\"id\": \"a\"\x7d"⟩⟩).1 = Outcome.ok "a" := by
  set_option exponentiation.threshold 2000 in decide

theorem hardwareCacher_ID_ok (hw : hardwareCacher) (id : String)
    (h : (hw.ID).1 = Outcome.ok id) :
    ∃ members, json.parse hw.hardware.JSON = some (JSON.object members) ∧
      lastValue members "id" = some (JSON.string id) := by
  unfold hardwareCacher.ID UnmarshalMapInterface at h
  cases hp : json.parse hw.hardware.JSON with
  | none => rw [hp] at h; simp at h
  | some v =>
    rw [hp] at h
    cases v with
    | null => simp [Map.get] at h
    | bool b => simp at h
    | number n => simp at h
    | string s => simp at h
    | array items => simp at h
    | object members =>
      refine ⟨members, rfl, ?_⟩
      simp only at h
      cases he : firstError (convertErrorsMembers members) with
      | some e => rw [he] at h; simp at h
      | none =>
        rw [he] at h
        simp only [get_valueInterfaceMembers] at h
        cases hl : lastValue members "id" with
        | none => rw [hl] at h; simp [Map.get] at h
        | some v =>
          rw [hl] at h
          simp only at h
          cases hv : valueInterface v with
          | string s =>
            rw [hv] at h
            simp only [Outcome.ok.injEq] at h
            rw [(valueInterface_eq_string v s).1 hv, h]
          | null => rw [hv] at h; simp at h
          | bool b => rw [hv] at h; simp at h
          | number n => rw [hv] at h; simp at h
          | array items => rw [hv] at h; simp at h
          | object ms => rw [hv] at h; simp at h

theorem hardwareCacher_ID_snd (hw : hardwareCacher) : (hw.ID).2 = hw := by
  unfold hardwareCacher.ID
  split
  · rfl
  · split <;> rfl

/-- C3: `ID` leaves the record as it was, so a second call gives the result of the
first; when it succeeds, the string it returns is the value of the top-level `id` of
the payload (for a Legacy record the document is an object whose `id` member is that
string, for a Current record it is the attribute `Id`); on a Current record it always
succeeds. -/
theorem ID_idempotent_faithful (hw : Hardware) :
    (hw.ID).2 = hw ∧
    ((hw.ID).2.ID).1 = (hw.ID).1 ∧
    (∀ c id, hw = Hardware.cacher c → (hw.ID).1 = Outcome.ok id →
      ∃ members, json.parse c.hardware.JSON = some (JSON.object members) ∧
        lastValue members "id" = some (JSON.string id)) ∧
    (∀ t, hw = Hardware.tinkerbell t → (hw.ID).1 = Outcome.ok t.hardware.Id) := by
  have h2 : (hw.ID).2 = hw := by
    cases hw with
    | cacher c => simp [Hardware.ID, hardwareCacher_ID_snd]
    | tinkerbell t => simp [Hardware.ID, hardwareTinkerbell.ID]
  refine ⟨h2, by rw [h2], ?_, ?_⟩
  · intro c id hc hok
    subst hc
    exact hardwareCacher_ID_ok c id hok
  · intro t ht
    subst ht
    rfl

/-! ## Lookup by IP -/

/-- C6, as stated, fails: when the upstream call fails with `e`, the error `ByIP`
returns is not `e` wrapped with a message; here the upstream fails for an unknown IP. -/
theorem ByIP_error_is_not_wrapped :
    sample.cacherClient.ByIP { IP := "10.9.9.9" } = Except.error sample.notFound ∧
    ¬ ∃ message, (Client.cacher ⟨sample.cacherClient⟩).ByIP "10.9.9.9"
        = Except.error (Error.wrap sample.notFound message) := by
  refine ⟨rfl, ?_⟩
  rintro ⟨message, h⟩
  have h' : (Client.cacher ⟨sample.cacherClient⟩).ByIP "10.9.9.9"
      = Except.error sample.notFound := rfl
  rw [h'] at h
  injection h with h
  cases h

/-- C6, amended: `ByIP` makes one upstream call whose only selector is the IP; when
that call fails with `e`, `ByIP` returns exactly `e`, unwrapped; when it succeeds with
record `h`, `ByIP` returns no error and a record of the flavor of the adapter around
exactly `h`. -/
theorem ByIP_surfaces_upstream_result (c : Client) (ip : String) (r : Except Error Hardware)
    (h : c.ByIP ip = r) :
    match c with
    | Client.cacher hg =>
      (∀ e, hg.client.ByIP { MAC := "", IP := ip, ID := "" } = Except.error e → r = Except.error e) ∧
      (∀ hw, hg.client.ByIP { MAC := "", IP := ip, ID := "" } = Except.ok hw →
        r = Except.ok (Hardware.cacher ⟨hw⟩))
    | Client.tinkerbell hg =>
      (∀ e, hg.client.ByIP { Mac := "", Ip := ip, Id := "" } = Except.error e → r = Except.error e) ∧
      (∀ hw, hg.client.ByIP { Mac := "", Ip := ip, Id := "" } = Except.ok hw →
        r = Except.ok (Hardware.tinkerbell ⟨hw⟩)) := by
  subst h
  cases c with
  | cacher hg =>
    refine ⟨fun e he => ?_, fun hw hhw => ?_⟩
    · simp only [Client.ByIP, clientCacher.ByIP, he]
    · simp only [Client.ByIP, clientCacher.ByIP, hhw]
  | tinkerbell hg =>
    refine ⟨fun e he => ?_, fun hw hhw => ?_⟩
    · simp only [Client.ByIP, clientTinkerbell.ByIP, he]
    · simp only [Client.ByIP, clientTinkerbell.ByIP, hhw]

/-- C6, amended, on the sample upstreams: an unknown IP gives the upstream error as it
is, the known IP gives the record of that flavor. -/
theorem ByIP_surfaces_upstream_result_witness :
    (Client.cacher ⟨sample.cacherClient⟩).ByIP "10.9.9.9" = Except.error sample.notFound ∧
    (Client.cacher ⟨sample.cacherClient⟩).ByIP "192.168.1.5"
      = Except.ok (Hardware.cacher ⟨sample.cacherRecord⟩) ∧
    (Client.tinkerbell ⟨sample.tinkClient⟩).ByIP "10.9.9.9" = Except.error sample.notFound ∧
    (Client.tinkerbell ⟨sample.tinkClient⟩).ByIP "192.168.1.5"
      = Except.ok (Hardware.tinkerbell ⟨sample.tinkRecord⟩) :=
  ⟨(ByIP_surfaces_upstream_result (Client.cacher ⟨sample.cacherClient⟩) "10.9.9.9" _ rfl).1
      sample.notFound rfl,
    (ByIP_surfaces_upstream_result (Client.cacher ⟨sample.cacherClient⟩) "192.168.1.5" _ rfl).2
      sample.cacherRecord rfl,
    (ByIP_surfaces_upstream_result (Client.tinkerbell ⟨sample.tinkClient⟩) "10.9.9.9" _ rfl).1
      sample.notFound rfl,
    (ByIP_surfaces_upstream_result (Client.tinkerbell ⟨sample.tinkClient⟩) "192.168.1.5" _ rfl).2
      sample.tinkRecord rfl⟩

/-! ## Subscriptions -/

theorem Watcher_upstream_Recv (w : Watcher) :
    (w.Recv).2.upstream = w.upstream.drop 1 ∧
    (w.Recv).1 = (w.upstream.head?).getD (Except.error io.EOF) := by
  cases w with
  | cacher w =>
    obtain ⟨⟨events⟩⟩ := w
    cases events with
    | nil => exact ⟨rfl, rfl⟩
    | cons e es =>
      cases e with
      | error err => exact ⟨rfl, rfl⟩
      | ok hw => exact ⟨rfl, rfl⟩
  | tinkerbell w =>
    obtain ⟨⟨events⟩⟩ := w
    cases events with
    | nil => exact ⟨rfl, rfl⟩
    | cons e es =>
      cases e with
      | error err => exact ⟨rfl, rfl⟩
      | ok hw => exact ⟨rfl, rfl⟩

theorem Watcher_recvs_eq (n : Nat) (w : Watcher) :
    w.recvs n = w.upstream.take n ++
      List.replicate (n - w.upstream.length) (Except.error io.EOF) := by
  induction n generalizing w with
  | zero => simp [Watcher.recvs]
  | succ n ih =>
    obtain ⟨h2, h1⟩ := Watcher_upstream_Recv w
    rw [Watcher.recvs, ih, h2, h1]
    cases hu : w.upstream with
    | nil => simp [List.replicate_succ]
    | cons e es => simp

/-- C10: the `k`-th call to `Recv` on a subscription returns the `k`-th event of the
upstream stream (counting from zero, among the first `n` calls, `k < n`): a record as
a record of the flavor of the adapter around it, a failure as that same error. The
results of `n` calls are the first `n` upstream events in upstream order, followed by
`io.EOF` once the upstream has nothing left. -/
theorem Recv_delivers_upstream_order (w : Watcher) (n k : Nat) (hk : k < n)
    (hlen : k < w.upstream.length) :
    (w.recvs n).get? k = w.upstream.get? k ∧
    w.recvs n = w.upstream.take n ++
      List.replicate (n - w.upstream.length) (Except.error io.EOF) := by
  refine ⟨?_, Watcher_recvs_eq n w⟩
  rw [Watcher_recvs_eq n w]
  rw [List.get?_eq_getElem?, List.get?_eq_getElem?]
  rw [List.getElem?_append_left (by simp; omega)]
  rw [List.getElem?_take]
  simp [hk]

/-- C10, on a Legacy stream of a record followed by the end of the stream: the first
call returns the record as a Legacy record, the second the error. -/
theorem Recv_delivers_upstream_order_witness :
    (Watcher.cacher ⟨⟨[Except.ok sample.cacherRecord, Except.error io.EOF]⟩⟩).recvs 2
      = [Except.ok (Hardware.cacher ⟨sample.cacherRecord⟩), Except.error io.EOF] ∧
    ((Watcher.cacher ⟨⟨[Except.ok sample.cacherRecord, Except.error io.EOF]⟩⟩).recvs 2).get? 1
      = (Watcher.cacher ⟨⟨[Except.ok sample.cacherRecord, Except.error io.EOF]⟩⟩).upstream.get? 1 :=
  ⟨rfl,
    (Recv_delivers_upstream_order
      (Watcher.cacher ⟨⟨[Except.ok sample.cacherRecord, Except.error io.EOF]⟩⟩) 2 1
      (by decide) (by decide)).1⟩

end hardware

/-! ## Caller identity -/

theorem walk_not_trusted (set : xff.TrustedProxySet) (chain : List xff.IP) (ip : xff.IP)
    (h : xff.walk set chain = some ip) : set.trusts ip = false := by
  unfold xff.walk at h
  have := List.find?_some h
  simpa using this

theorem walk_none (set : xff.TrustedProxySet) (chain : List xff.IP)
    (h : xff.walk set chain = none) : ∀ ip ∈ chain, set.trusts ip = true := by
  unfold xff.walk at h
  intro ip hip
  have := List.find?_eq_none.1 h ip (List.mem_reverse.2 hip)
  simpa using this

/-- C9: the caller identity the handlers see is an IP outside the trusted set, or it
is the direct peer and no IP of the `X-Forwarded-For` chain is outside the trusted
set; when the direct peer is not in the trusted set, and whenever the set is empty,
the chain is ignored and the caller identity is the direct peer. -/
theorem callerIdentity_not_trusted_or_peer (set : xff.TrustedProxySet) (peer : xff.IP)
    (chain : List xff.IP) :
    (set.trusts (callerIdentity set peer chain) = false ∨
      (callerIdentity set peer chain = peer ∧ ∀ ip ∈ chain, set.trusts ip = true)) ∧
    (set.trusts peer = false → callerIdentity set peer chain = peer) ∧
    (set = [] → callerIdentity set peer chain = peer) := by
  have hpeer : set.trusts peer = false → callerIdentity set peer chain = peer := by
    intro hp
    unfold callerIdentity ServeHTTP
    split
    · simp [Served.callerIdentity, xff.resolve, hp]
    · rfl
  refine ⟨?_, hpeer, ?_⟩
  · cases hp : set.trusts peer with
    | false =>
      rw [hpeer hp]
      exact Or.inl hp
    | true =>
      have hlen : set.length > 0 := by
        cases set with
        | nil => simp [xff.TrustedProxySet.trusts] at hp
        | cons c cs => simp
      simp only [callerIdentity, ServeHTTP, hlen, if_true, Served.callerIdentity, xff.resolve, hp]
      cases hw : xff.walk set chain with
      | some ip => exact Or.inl (walk_not_trusted set chain ip hw)
      | none => exact Or.inr ⟨rfl, walk_none set chain hw⟩
  · intro hs
    subst hs
    rfl

/-- The trusted proxy rewrite: with `10.0.0.0/8` trusted, peer `10.0.0.1` and the chain
`203.0.113.9, 10.0.0.2`, the caller is `203.0.113.9`; an untrusted peer is the caller
whatever the chain says. -/
theorem callerIdentity_scenario :
    callerIdentity [sample.net10] (sample.ip4 10 0 0 1)
      [sample.ip4 203 0 113 9, sample.ip4 10 0 0 2] = sample.ip4 203 0 113 9 ∧
    callerIdentity [sample.net10] (sample.ip4 192 168 1 5)
      [sample.ip4 203 0 113 9, sample.ip4 10 0 0 2] = sample.ip4 192 168 1 5 := by
  decide

/-! ## The endpoint binder -/

theorem Map.get_append {α : Type} (m1 m2 : Map α) (k : String) :
    Map.get (m1 ++ m2) k = match Map.get m1 k with
      | some v => some v
      | none => Map.get m2 k := by
  induction m1 with
  | nil => simp [Map.get]
  | cons e es ih =>
    simp only [List.cons_append, Map.get]
    by_cases h : e.1 = k
    · simp [h]
    · simp [h, ih]

theorem Map.get_eq_none {α : Type} (m : Map α) (k : String) :
    Map.get m k = none ↔ k ∉ m.map Prod.fst := by
  induction m with
  | nil => simp [Map.get]
  | cons e es ih =>
    simp only [Map.get, List.map_cons, List.mem_cons, not_or]
    by_cases h : e.1 = k
    · simp [h]
    · simp only [h, if_false, ih]
      constructor
      · intro h1; exact ⟨fun h2 => h h2.symm, h1⟩
      · intro h1; exact h1.2

theorem Map.mem_iff_get {α : Type} (m : Map α) (hm : (m.map Prod.fst).Nodup) (k : String) (v : α) :
    (k, v) ∈ m ↔ Map.get m k = some v := by
  induction m with
  | nil => simp [Map.get]
  | cons e es ih =>
    simp only [List.map_cons, List.nodup_cons] at hm
    simp only [List.mem_cons, Map.get]
    by_cases h : e.1 = k
    · simp only [h, if_true, Option.some.injEq]
      constructor
      · rintro (h1 | h1)
        · rw [← h1]
        · exfalso
          apply hm.1
          rw [h]
          exact List.mem_map.2 ⟨(k, v), h1, rfl⟩
      · intro h1
        left
        rw [← h1, ← h]
    · simp only [h, if_false]
      rw [← ih hm.2]
      constructor
      · rintro (h1 | h1)
        · exfalso; apply h; rw [← h1]
        · exact h1
      · intro h1; exact Or.inr h1

theorem Map.keys_insert {α : Type} (m : Map α) (k : String) (v : α) (k' : String) :
    k' ∈ (m.insert k v).map Prod.fst ↔ k' = k ∨ k' ∈ m.map Prod.fst := by
  rw [← not_iff_not, ← Map.get_eq_none, Map.get_insert, not_or, ← Map.get_eq_none]
  by_cases h : k = k'
  · simp [h]
  · simp only [h, if_false]
    constructor
    · intro h1; exact ⟨fun h2 => h h2.symm, h1⟩
    · intro h1; exact h1.2

theorem Map.nodup_insert {α : Type} (m : Map α) (k : String) (v : α)
    (hm : (m.map Prod.fst).Nodup) : ((m.insert k v).map Prod.fst).Nodup := by
  induction m with
  | nil => simp [Map.insert]
  | cons e es ih =>
    simp only [List.map_cons, List.nodup_cons] at hm
    simp only [Map.insert]
    by_cases h : e.1 = k
    · simp only [h, if_true, List.map_cons, List.nodup_cons]
      exact ⟨h ▸ hm.1, hm.2⟩
    · simp only [h, if_false, List.map_cons, List.nodup_cons]
      refine ⟨?_, ih hm.2⟩
      rw [Map.keys_insert]
      rintro (h1 | h1)
      · exact h h1
      · exact hm.1 h1

theorem lastValue_mem (members : List (String × JSON)) (k : String) (v : JSON)
    (h : lastValue members k = some v) : (k, v) ∈ members := by
  induction members with
  | nil => simp [lastValue] at h
  | cons e es ih =>
    simp only [lastValue] at h
    cases hl : lastValue es k with
    | some w =>
      rw [hl] at h
      simp only [Option.some.injEq] at h
      subst h
      exact List.mem_cons_of_mem _ (ih hl)
    | none =>
      rw [hl] at h
      by_cases hk : e.1 = k
      · simp only [hk, if_true, Option.some.injEq] at h
        rw [← h, ← hk]
        exact List.mem_cons_self _ _
      · simp [hk] at h

theorem stringMembers_nodup (members : List (String × JSON)) (m : Map String)
    (hm : (m.map Prod.fst).Nodup) : (((stringMembers members m).1).map Prod.fst).Nodup := by
  induction members generalizing m with
  | nil => simpa [stringMembers] using hm
  | cons e es ih =>
    simp only [stringMembers]
    exact ih _ (Map.nodup_insert m _ _ hm)

theorem get_stringMembers (members : List (String × JSON)) (m : Map String) (k : String) :
    Map.get (stringMembers members m).1 k =
      match lastValue members k with
      | some v => some (decodeString "" v).1
      | none => Map.get m k := by
  induction members generalizing m with
  | nil => simp [stringMembers, lastValue]
  | cons e es ih =>
    simp only [stringMembers, lastValue, ih]
    cases h : lastValue es k with
    | some v => simp
    | none =>
      simp only [Map.get_insert]
      by_cases h' : e.1 = k <;> simp [h']

theorem decodeString_errors (old : String) (v : JSON) :
    (decodeString old v).2 = [] ↔ (v = JSON.null ∨ ∃ s, v = JSON.string s) := by
  cases v <;> simp [decodeString]

theorem stringMembers_errors (members : List (String × JSON)) (m : Map String) :
    (stringMembers members m).2 = [] ↔
      ∀ e ∈ members, e.2 = JSON.null ∨ ∃ s, e.2 = JSON.string s := by
  induction members generalizing m with
  | nil => simp [stringMembers]
  | cons e es ih =>
    simp only [stringMembers, List.append_eq_nil, List.mem_cons, forall_eq_or_imp, ih,
      decodeString_errors]

theorem firstError_eq_none (l : List Error) : firstError l = none ↔ l = [] := by
  cases l <;> simp [firstError]

namespace httpserver

theorem registerEndpoints_ok (es : List (String × String)) (mux : http.ServeMux)
    (hnodup : (es.map Prod.fst).Nodup)
    (hkeys : ∀ e ∈ es, e.1 ≠ "" ∧ Map.get mux.m e.1 = none) :
    registerEndpoints es mux
      = Outcome.ok ⟨mux.m ++ es.map (fun e => (e.1, http.Handler.getMetadata e.2))⟩ := by
  induction es generalizing mux with
  | nil => simp [registerEndpoints]
  | cons e es ih =>
    simp only [List.map_cons, List.nodup_cons] at hnodup
    have he := hkeys e (List.mem_cons_self _ _)
    simp only [registerEndpoints, http.ServeMux.Handle, he.1, if_false, he.2, Option.isSome_none,
      Bool.false_eq_true]
    rw [ih _ hnodup.2]
    · simp
    · intro e' he'
      refine ⟨(hkeys e' (List.mem_cons_of_mem _ he')).1, ?_⟩
      rw [Map.get_append, (hkeys e' (List.mem_cons_of_mem _ he')).2]
      simp only [Map.get]
      have : e.1 ≠ e'.1 := by
        intro heq
        apply hnodup.1
        rw [heq]
        exact List.mem_map.2 ⟨e', he', rfl⟩
      simp [this]

end httpserver

namespace httpserver

theorem registerCustomEndpoints_object (environ : env.Environ) (DefaultServeMux : http.ServeMux)
    (range : Map String → List (String × String)) (mux : Option http.ServeMux)
    (members : List (String × JSON))
    (hparse : json.parse
      (env.Get environ "CUSTOM_ENDPOINTS" ["\x7b\"/metadata\":\".metadata\"\x7d"])
        = some (JSON.object members)) :
    registerCustomEndpoints environ DefaultServeMux range mux =
      match firstError (stringMembers members []).2 with
      | some err =>
        Outcome.ok (mux.getD DefaultServeMux, some (Error.wrap err "error in parsing custom endpoints"))
      | none =>
        match registerEndpoints (range (stringMembers members []).1) (mux.getD DefaultServeMux) with
        | Outcome.ok mux1 => Outcome.ok (mux1, none)
        | Outcome.error err => Outcome.error err
        | Outcome.panic reason => Outcome.panic reason := by
  simp only [registerCustomEndpoints, UnmarshalMapString, hparse]
  cases firstError (stringMembers members []).2 <;> rfl

/-- C7, as stated, fails: a duplicated key is accepted, the last member with it
winning, and so is a value that is no selector expression; `registerCustomEndpoints`
returns no error and installs the handler. `null`, which is no JSON object, is accepted
too, and installs nothing. -/
theorem registerCustomEndpoints_accepts_unvalidated :
    registerCustomEndpoints
        (sample.customEndpoints "\x7b\"/a\": \".x\", \"/a\": \".y\"\x7d") ⟨[]⟩ id (some fixedRoutes)
      = Outcome.ok (⟨fixedRoutes.m ++ [("/a", http.Handler.getMetadata ".y")]⟩, none) ∧
    registerCustomEndpoints
        (sample.customEndpoints "\x7b\"/a\": \"..[[\"\x7d") ⟨[]⟩ id (some fixedRoutes)
      = Outcome.ok (⟨fixedRoutes.m ++ [("/a", http.Handler.getMetadata "..[[")]⟩, none) ∧
    registerCustomEndpoints (sample.customEndpoints "null") ⟨[]⟩ id (some fixedRoutes)
      = Outcome.ok (fixedRoutes, none) := by
  decide

theorem registerCustomEndpoints_error_text (environ : env.Environ)
    (DefaultServeMux : http.ServeMux) (range : Map String → List (String × String))
    (mux : Option http.ServeMux) :
    ((∃ err, registerCustomEndpoints environ DefaultServeMux range mux
        = Outcome.ok (mux.getD DefaultServeMux, some err)) ↔
      (json.parse (env.Get environ "CUSTOM_ENDPOINTS" ["\x7b\"/metadata\":\".metadata\"\x7d"]) = none ∨
        ∃ v, json.parse (env.Get environ "CUSTOM_ENDPOINTS" ["\x7b\"/metadata\":\".metadata\"\x7d"])
            = some v ∧
          v ≠ JSON.null ∧
          ¬ ∃ members, v = JSON.object members ∧
            ∀ e ∈ members, e.2 = JSON.null ∨ ∃ s, e.2 = JSON.string s)) ∧
    (∀ mux1 err, registerCustomEndpoints environ DefaultServeMux range mux
        = Outcome.ok (mux1, some err) → mux1 = mux.getD DefaultServeMux) ∧
    (∀ err, registerCustomEndpoints environ DefaultServeMux range (some fixedRoutes)
        = Outcome.ok (fixedRoutes, some err) →
      Serve environ DefaultServeMux range = Outcome.error err) := by
  refine ⟨?_, ?_, ?_⟩
  · cases hp : json.parse
        (env.Get environ "CUSTOM_ENDPOINTS" ["\x7b\"/metadata\":\".metadata\"\x7d"]) with
    | none =>
      simp only [registerCustomEndpoints, UnmarshalMapString, hp, true_or, iff_true]
      exact ⟨_, rfl⟩
    | some v =>
      cases v with
      | object members =>
        rw [registerCustomEndpoints_object environ DefaultServeMux range mux members hp]
        simp only [false_or, Option.some.injEq, exists_eq_left', ne_eq, not_false_eq_true,
          true_and, reduceCtorEq, JSON.object.injEq]
        rw [← stringMembers_errors members [], ← firstError_eq_none]
        cases hf : firstError (stringMembers members []).2 with
        | some e => simp
        | none =>
          simp only [not_true_eq_false, iff_false, not_exists]
          intro err
          cases registerEndpoints (range (stringMembers members []).1) (mux.getD DefaultServeMux) <;>
            simp
      | null =>
        simp only [registerCustomEndpoints, UnmarshalMapString, hp, ne_eq, not_true_eq_false,
          false_and, and_false, exists_false, or_false, Option.some.injEq, exists_eq_left',
          reduceCtorEq, iff_false, not_exists]
        intro err
        cases registerEndpoints (range []) (mux.getD DefaultServeMux) <;> simp
      | bool b => simp [registerCustomEndpoints, UnmarshalMapString, hp]
      | number n => simp [registerCustomEndpoints, UnmarshalMapString, hp]
      | string s0 => simp [registerCustomEndpoints, UnmarshalMapString, hp]
      | array items => simp [registerCustomEndpoints, UnmarshalMapString, hp]
  · intro mux1 err h
    simp only [registerCustomEndpoints] at h
    split at h
    · simp only [Outcome.ok.injEq, Prod.mk.injEq] at h
      exact h.1.symm
    · split at h <;> simp at h
  · intro err h
    simp only [Serve, h]

theorem customEndpoints_set (environ : env.Environ) (value : String)
    (hset : environ "CUSTOM_ENDPOINTS" = some value) (hne : value ≠ "") :
    env.Get environ "CUSTOM_ENDPOINTS" ["\x7b\"/metadata\":\".metadata\"\x7d"] = value := by
  simp [env.Get, env.Getenv, hset, hne]

theorem customEndpoints_default (environ : env.Environ)
    (h : environ "CUSTOM_ENDPOINTS" = none ∨ environ "CUSTOM_ENDPOINTS" = some "") :
    json.UnmarshalMapString
        (env.Get environ "CUSTOM_ENDPOINTS" ["\x7b\"/metadata\":\".metadata\"\x7d"]) []
      = ([("/metadata", ".metadata")], none) := by
  have : env.Get environ "CUSTOM_ENDPOINTS" ["\x7b\"/metadata\":\".metadata\"\x7d"]
      = "\x7b\"/metadata\":\".metadata\"\x7d" := by
    rcases h with h | h <;> simp [env.Get, env.Getenv, h]
  rw [this]
  decide

/-- C7, amended: when the environment variable `CUSTOM_ENDPOINTS` is set to a value
that is not empty, `registerCustomEndpoints` returns an error exactly when
`json.Unmarshal` rejects that value as a `map[string]string`, that is when the value is
not valid JSON, or is neither `null` nor an object, or some member of the object has a
value that is neither a string nor `null`. When the variable is unset or empty, the
default mapping stands for it and no error is returned. On an error the function
returns before installing any handler, and `Serve` ends the process on that error. -/
theorem registerCustomEndpoints_error_iff (environ : env.Environ)
    (DefaultServeMux : http.ServeMux) (range : Map String → List (String × String))
    (mux : Option http.ServeMux) :
    (∀ value, environ "CUSTOM_ENDPOINTS" = some value → value ≠ "" →
      ((∃ err, registerCustomEndpoints environ DefaultServeMux range mux
          = Outcome.ok (mux.getD DefaultServeMux, some err)) ↔
        (json.parse value = none ∨
          ∃ v, json.parse value = some v ∧
            v ≠ JSON.null ∧
            ¬ ∃ members, v = JSON.object members ∧
              ∀ e ∈ members, e.2 = JSON.null ∨ ∃ s, e.2 = JSON.string s))) ∧
    ((environ "CUSTOM_ENDPOINTS" = none ∨ environ "CUSTOM_ENDPOINTS" = some "") →
      ∀ mux1 err, registerCustomEndpoints environ DefaultServeMux range mux
        ≠ Outcome.ok (mux1, some err)) ∧
    (∀ mux1 err, registerCustomEndpoints environ DefaultServeMux range mux
        = Outcome.ok (mux1, some err) → mux1 = mux.getD DefaultServeMux) ∧
    (∀ err, registerCustomEndpoints environ DefaultServeMux range (some fixedRoutes)
        = Outcome.ok (fixedRoutes, some err) →
      Serve environ DefaultServeMux range = Outcome.error err) := by
  have htext := registerCustomEndpoints_error_text environ DefaultServeMux range mux
  refine ⟨?_, ?_, htext.2.1, htext.2.2⟩
  · intro value hset hne
    have h := htext.1
    rw [customEndpoints_set environ value hset hne] at h
    exact h
  · intro hdef mux1 err h
    simp only [registerCustomEndpoints, customEndpoints_default environ hdef] at h
    split at h <;> simp at h

/-- C7, amended, at three values of `CUSTOM_ENDPOINTS`: a blank and a JSON array give
an error and leave the router as it was; the empty string gives no error, the default
mapping standing for it. -/
theorem registerCustomEndpoints_error_iff_witness :
    (∃ err, registerCustomEndpoints (sample.customEndpoints " ") ⟨[]⟩ id (some fixedRoutes)
      = Outcome.ok (fixedRoutes, some err)) ∧
    (∃ err, registerCustomEndpoints (sample.customEndpoints "[1]") ⟨[]⟩ id (some fixedRoutes)
      = Outcome.ok (fixedRoutes, some err)) ∧
    (∀ mux1 err, registerCustomEndpoints (sample.customEndpoints "") ⟨[]⟩ id (some fixedRoutes)
      ≠ Outcome.ok (mux1, some err)) ∧
    registerCustomEndpoints (sample.customEndpoints "") ⟨[]⟩ id (some fixedRoutes)
      = Outcome.ok (⟨fixedRoutes.m ++
          [("/metadata", http.Handler.getMetadata ".metadata")]⟩, none) :=
  ⟨((registerCustomEndpoints_error_iff (sample.customEndpoints " ") ⟨[]⟩ id
        (some fixedRoutes)).1 " " rfl (by decide)).2 (Or.inl rfl),
    ((registerCustomEndpoints_error_iff (sample.customEndpoints "[1]") ⟨[]⟩ id
        (some fixedRoutes)).1 "[1]" rfl (by decide)).2
      (Or.inr ⟨JSON.array [JSON.number ⟨false, 1, [], none⟩], rfl, by simp, by simp⟩),
    (registerCustomEndpoints_error_iff (sample.customEndpoints "") ⟨[]⟩ id
        (some fixedRoutes)).2.1 (Or.inr rfl),
    by decide⟩

/-- C8, as stated, fails: `CUSTOM_ENDPOINTS` is a JSON object mapping a path to a
selector, and `registerCustomEndpoints` neither returns nor installs a handler for it:
the path is one `Serve` has registered already, and the router panics. -/
theorem registerCustomEndpoints_panics_on_registered_path :
    registerCustomEndpoints
        (sample.customEndpoints "\x7b\"/metrics\": \".metadata\"\x7d") ⟨[]⟩ id (some fixedRoutes)
      = Outcome.panic "http: multiple registrations for /metrics" := by
  decide

theorem default_endpoints (environ : env.Environ) (h : environ "CUSTOM_ENDPOINTS" = none) :
    json.UnmarshalMapString
        (env.Get environ "CUSTOM_ENDPOINTS" ["\x7b\"/metadata\":\".metadata\"\x7d"]) []
      = ([("/metadata", ".metadata")], none) := by
  have : env.Get environ "CUSTOM_ENDPOINTS" ["\x7b\"/metadata\":\".metadata\"\x7d"]
      = "\x7b\"/metadata\":\".metadata\"\x7d" := by
    simp [env.Get, env.Getenv, h]
  rw [this]
  decide

/-- C8, amended: when `CUSTOM_ENDPOINTS` is a JSON object whose values are strings and
whose keys are not empty and not registered on the router already,
`registerCustomEndpoints` returns no error and adds to the router exactly one handler
for each distinct key, built from the selector of the last member with that key, in
whatever order the runtime iterates. When `CUSTOM_ENDPOINTS` is unset, what it adds to
the router of `Serve` is exactly the entry `/metadata` with selector `.metadata`. -/
theorem registerCustomEndpoints_installs (environ : env.Environ)
    (DefaultServeMux : http.ServeMux) (range : Map String → List (String × String))
    (mux : Option http.ServeMux) (hrange : ∀ m, (range m).Perm m) :
    (∀ members,
      json.parse (env.Get environ "CUSTOM_ENDPOINTS" ["\x7b\"/metadata\":\".metadata\"\x7d"])
        = some (JSON.object members) →
      (∀ e ∈ members, ∃ s, e.2 = JSON.string s) →
      (∀ e ∈ members, e.1 ≠ "" ∧ Map.get (mux.getD DefaultServeMux).m e.1 = none) →
      ∃ installed : List (String × String),
        registerCustomEndpoints environ DefaultServeMux range mux
          = Outcome.ok (⟨(mux.getD DefaultServeMux).m ++
              installed.map (fun e => (e.1, http.Handler.getMetadata e.2))⟩, none) ∧
        (installed.map Prod.fst).Nodup ∧
        ∀ k s, (k, s) ∈ installed ↔ lastValue members k = some (JSON.string s)) ∧
    (environ "CUSTOM_ENDPOINTS" = none →
      registerCustomEndpoints environ DefaultServeMux range (some fixedRoutes)
        = Outcome.ok (⟨fixedRoutes.m ++
            [("/metadata", http.Handler.getMetadata ".metadata")]⟩, none)) := by
  constructor
  · intro members hparse hstr hkeys
    have herr : firstError (stringMembers members []).2 = none := by
      rw [firstError_eq_none, stringMembers_errors]
      intro e he
      exact Or.inr (hstr e he)
    have hnd : (((stringMembers members []).1).map Prod.fst).Nodup :=
      stringMembers_nodup members [] (by simp)
    have hperm := hrange (stringMembers members []).1
    have hmem : ∀ k s, (k, s) ∈ range (stringMembers members []).1 ↔
        lastValue members k = some (JSON.string s) := by
      intro k s
      rw [hperm.mem_iff, Map.mem_iff_get _ hnd, get_stringMembers]
      cases hl : lastValue members k with
      | none => simp [Map.get]
      | some v =>
        obtain ⟨s', hs'⟩ := hstr (k, v) (lastValue_mem members k v hl)
        simp only at hs'
        subst hs'
        simp [decodeString]
    refine ⟨range (stringMembers members []).1, ?_, (hperm.map Prod.fst).nodup_iff.2 hnd, hmem⟩
    rw [registerCustomEndpoints_object environ DefaultServeMux range mux members hparse, herr]
    simp only
    rw [registerEndpoints_ok _ _ ((hperm.map Prod.fst).nodup_iff.2 hnd)]
    intro e he
    have h1 := (hmem e.1 e.2).1 he
    exact hkeys (e.1, JSON.string e.2) (lastValue_mem members _ _ h1)
  · intro hunset
    simp only [registerCustomEndpoints, default_endpoints environ hunset]
    have hperm := hrange [("/metadata", ".metadata")]
    rw [List.perm_singleton.1 hperm]
    simp only [Option.getD_some]
    decide

/-- C8, amended, on two endpoints iterated in reverse order and on an environment
without `CUSTOM_ENDPOINTS`. -/
theorem registerCustomEndpoints_installs_witness :
    (∃ installed : List (String × String),
      registerCustomEndpoints
          (sample.customEndpoints "\x7b\"/metadata\":\".metadata\",\"/userdata\":\".userdata\"\x7d")
          ⟨[]⟩ List.reverse (some fixedRoutes)
        = Outcome.ok (⟨fixedRoutes.m ++
            installed.map (fun e => (e.1, http.Handler.getMetadata e.2))⟩, none) ∧
      (installed.map Prod.fst).Nodup ∧
      ∀ k s, (k, s) ∈ installed ↔
        lastValue [("/metadata", JSON.string ".metadata"), ("/userdata", JSON.string ".userdata")] k
          = some (JSON.string s)) ∧
    registerCustomEndpoints (fun _ => none) ⟨[]⟩ List.reverse (some fixedRoutes)
      = Outcome.ok (⟨fixedRoutes.m ++
          [("/metadata", http.Handler.getMetadata ".metadata")]⟩, none) :=
  ⟨(registerCustomEndpoints_installs
      (sample.customEndpoints "\x7b\"/metadata\":\".metadata\",\"/userdata\":\".userdata\"\x7d")
      ⟨[]⟩ List.reverse (some fixedRoutes) (fun m => List.reverse_perm m)).1
      [("/metadata", JSON.string ".metadata"), ("/userdata", JSON.string ".userdata")]
      (by rfl)
      (by
        intro e he
        simp only [List.mem_cons, List.mem_singleton, List.not_mem_nil, or_false] at he
        rcases he with he | he <;> subst he <;> exact ⟨_, rfl⟩)
      (by
        intro e he
        simp only [List.mem_cons, List.mem_singleton, List.not_mem_nil, or_false] at he
        rcases he with he | he <;> subst he <;> decide),
    (registerCustomEndpoints_installs (fun _ => none) ⟨[]⟩ List.reverse (some fixedRoutes)
      (fun m => List.reverse_perm m)).2 rfl⟩

end httpserver

/-! ## Texts written by the encoder are read back by the decoder -/

namespace json

theorem hexValue_hexDigit (n : Nat) (h : n < 16) : hexValue (hexDigit n) = some n := by
  interval_cases n <;> decide

theorem hex4_escape (n : Nat) (h : n < 256) :
    hex4 '0' '0' (hexDigit (n / 16)) (hexDigit (n % 16)) = some n := by
  have h1 : n / 16 < 16 := by omega
  have h2 : n % 16 < 16 := by omega
  simp only [hex4, hexValue_hexDigit _ h1, hexValue_hexDigit _ h2]
  have : hexValue '0' = some 0 := by decide
  simp only [this]
  congr 1
  omega

theorem parseChars_quote (rest : List Char) :
    parseChars none ('"' :: rest) = some ([], rest) := by
  rw [parseChars.eq_def]
  simp [flush]

theorem parseChars_raw (c : Char) (rest : List Char) (h1 : c ≠ '"') (h2 : c ≠ '\\')
    (h3 : ¬ c.toNat < 0x20) : parseChars none (c :: rest) = emit c (parseChars none rest) := by
  rw [parseChars.eq_def]
  simp [flush, h1, h2, h3]

theorem parseChars_short (e ch : Char) (rest : List Char) (h1 : e ≠ 'u')
    (h2 : unescape e = some ch) :
    parseChars none ('\\' :: e :: rest) = emit ch (parseChars none rest) := by
  rw [parseChars.eq_def]
  simp [flush, h1, h2]

theorem parseChars_hex (a b c d : Char) (n : Nat) (rest : List Char)
    (h : hex4 a b c d = some n) (hn : n < 0xD800) :
    parseChars none ('\\' :: 'u' :: a :: b :: c :: d :: rest)
      = emit (Char.ofNat n) (parseChars none rest) := by
  rw [parseChars.eq_def]
  have h1 : ¬ (0xD800 ≤ n ∧ n < 0xDC00) := by omega
  have h2 : ¬ (0xDC00 ≤ n ∧ n < 0xE000) := by omega
  simp only [h, flush]
  simp [h1, h2]

theorem parseChars_escapeChar (c : Char) (rest : List Char) :
    parseChars none (escapeChar c ++ rest) = emit c (parseChars none rest) := by
  unfold escapeChar
  split
  · rename_i h; subst h
    exact parseChars_short _ _ _ (by decide) (by decide)
  split
  · rename_i h; subst h
    exact parseChars_short _ _ _ (by decide) (by decide)
  split
  · rename_i h; subst h
    exact parseChars_short _ _ _ (by decide) (by decide)
  split
  · rename_i h; subst h
    exact parseChars_short _ _ _ (by decide) (by decide)
  split
  · rename_i h; subst h
    exact parseChars_short _ _ _ (by decide) (by decide)
  split
  · rename_i h1 h2 h3 h4 h5 h
    have hlt : c.toNat < 256 := by
      rcases h with h | h | h | h
      · omega
      · subst h; decide
      · subst h; decide
      · subst h; decide
    have := parseChars_hex '0' '0' (hexDigit (c.toNat / 16)) (hexDigit (c.toNat % 16)) c.toNat rest
      (hex4_escape _ hlt) (by omega)
    rw [Char.ofNat_toNat] at this
    exact this
  split
  · rename_i h
    have := parseChars_hex '2' '0' '2' '8' 0x2028 rest (by decide) (by omega)
    rw [← h, Char.ofNat_toNat] at this
    exact this
  split
  · rename_i h
    have := parseChars_hex '2' '0' '2' '9' 0x2029 rest (by decide) (by omega)
    rw [← h, Char.ofNat_toNat] at this
    exact this
  · rename_i h1 h2 h3 h4 h5 h6 h7 h8
    exact parseChars_raw c rest h1 h2 (fun h => h6 (Or.inl h))

theorem parseChars_escapeChars (cs rest : List Char) :
    parseChars none (escapeChars cs ++ ('"' :: rest)) = some (cs, rest) := by
  induction cs with
  | nil => simp [escapeChars, parseChars_quote]
  | cons c cs ih =>
    simp only [escapeChars, List.append_assoc, parseChars_escapeChar, ih, emit, Option.map_some']

end json

namespace json

theorem digitValue_digit (d : Nat) (h : d < 10) : digitValue (Char.ofNat (48 + d)) = some d := by
  interval_cases d <;> decide

theorem takeDigits_append (cs rest : List Char) (hcs : ∀ c ∈ cs, digitValue c ≠ none)
    (hrest : ∀ c ∈ rest.head?, digitValue c = none) :
    takeDigits (cs ++ rest) = ((takeDigits cs).1, rest) := by
  induction cs with
  | nil =>
    cases rest with
    | nil => simp [takeDigits]
    | cons r rs =>
      have := hrest r (by simp)
      simp [takeDigits, this]
  | cons c cs ih =>
    have hc := hcs c (List.mem_cons_self _ _)
    cases hd : digitValue c with
    | none => exact absurd hd hc
    | some d =>
      simp only [List.cons_append, takeDigits, hd, List.append_eq]
      rw [ih (fun c' hc' => hcs c' (List.mem_cons_of_mem _ hc'))]

theorem takeDigits_snoc (cs : List Char) (d : Nat) (hd : d < 10)
    (hcs : ∀ c ∈ cs, digitValue c ≠ none) :
    (takeDigits (cs ++ [Char.ofNat (48 + d)])).1 = (takeDigits cs).1 ++ [d] := by
  induction cs with
  | nil => simp [takeDigits, digitValue_digit d hd]
  | cons c cs ih =>
    have hc := hcs c (List.mem_cons_self _ _)
    cases hv : digitValue c with
    | none => exact absurd hv hc
    | some v =>
      simp only [List.cons_append, takeDigits, hv, List.append_eq]
      rw [ih (fun c' hc' => hcs c' (List.mem_cons_of_mem _ hc'))]

theorem natDigits_digits (fuel n : Nat) : ∀ c ∈ natDigits fuel n, digitValue c ≠ none := by
  induction fuel generalizing n with
  | zero => simp [natDigits]
  | succ fuel ih =>
    intro c hc
    simp only [natDigits] at hc
    split at hc
    · rename_i h
      simp only [List.mem_singleton] at hc
      subst hc
      simp [digitValue_digit n h]
    · simp only [List.mem_append, List.mem_singleton] at hc
      rcases hc with hc | hc
      · exact ih _ c hc
      · subst hc
        simp [digitValue_digit (n % 10) (Nat.mod_lt _ (by decide))]

theorem digitsToNat_snoc (ds : List Nat) (d : Nat) :
    digitsToNat (ds ++ [d]) = digitsToNat ds * 10 + d := by
  simp [digitsToNat, List.foldl_append]

theorem takeDigits_natDigits (fuel n : Nat) (h : n < 10 ^ fuel) (hf : 0 < fuel) :
    digitsToNat (takeDigits (natDigits fuel n)).1 = n ∧
    (n < 10 → (takeDigits (natDigits fuel n)).1 = [n]) ∧
    (10 ≤ n → ∃ d e ds, (takeDigits (natDigits fuel n)).1 = d :: e :: ds ∧ d ≠ 0) := by
  induction fuel generalizing n with
  | zero => omega
  | succ fuel ih =>
    simp only [natDigits]
    by_cases hn : n < 10
    · rw [if_pos hn]
      have : takeDigits [Char.ofNat (48 + n)] = ([n], []) := by
        simp [takeDigits, digitValue_digit n hn]
      rw [this]
      refine ⟨by simp [digitsToNat], fun _ => rfl, fun h10 => by omega⟩
    · rw [if_neg hn]
      have hlt : n / 10 < 10 ^ fuel := by
        rw [Nat.div_lt_iff_lt_mul (by decide)]
        rw [pow_succ] at h
        exact h
      have hfuel : 0 < fuel := by
        rcases Nat.eq_zero_or_pos fuel with h0 | h0
        · subst h0
          simp at hlt
          omega
        · exact h0
      obtain ⟨h1, h2, h3⟩ := ih (n / 10) hlt hfuel
      rw [takeDigits_snoc _ _ (Nat.mod_lt _ (by decide)) (natDigits_digits fuel (n / 10))]
      refine ⟨?_, fun h10 => absurd h10 hn, fun _ => ?_⟩
      · rw [digitsToNat_snoc, h1]
        omega
      · by_cases hq : n / 10 < 10
        · rw [h2 hq]
          exact ⟨n / 10, n % 10, [], rfl, by omega⟩
        · obtain ⟨d, e, ds, hds, hd⟩ := h3 (by omega)
          rw [hds]
          exact ⟨d, e, ds ++ [n % 10], rfl, hd⟩

theorem parseInt_encodeNat (n : Nat) (rest : List Char)
    (hrest : ∀ c ∈ rest.head?, digitValue c = none) :
    parseInt (encodeNat n ++ rest) = some (n, rest) := by
  have hlt : n < 10 ^ (n + 1) := Nat.lt_of_lt_of_le (Nat.lt_pow_self (by decide) n)
    (Nat.pow_le_pow_right (by decide) (Nat.le_succ n))
  obtain ⟨h1, h2, h3⟩ := takeDigits_natDigits (n + 1) n hlt (Nat.succ_pos n)
  unfold parseInt encodeNat
  rw [takeDigits_append _ _ (natDigits_digits (n + 1) n) hrest]
  by_cases hn : n < 10
  · rw [h2 hn]
  · obtain ⟨d, e, ds, hds, hd⟩ := h3 (by omega)
    rw [hds] at h1 ⊢
    simp only [hd, if_false, h1]

theorem parseUnsigned_encodeNat (neg : Bool) (n : Nat) (d : Char) (rest : List Char)
    (hd : d = ',' ∨ d = '\x7d') :
    parseUnsigned neg (encodeNat n ++ d :: rest) = some (⟨neg, n, [], none⟩, d :: rest) := by
  have h1 : digitValue d = none := by rcases hd with h | h <;> subst h <;> decide
  have h2 : d ≠ '.' := by rcases hd with h | h <;> subst h <;> decide
  have h3 : ¬ (d = 'e' ∨ d = 'E') := by rcases hd with h | h <;> subst h <;> decide
  unfold parseUnsigned
  rw [parseInt_encodeNat n (d :: rest) (by simpa using h1)]
  simp [parseFrac, parseExp, h2, h3]

theorem encodeNat_head (n : Nat) : ∃ c cs, encodeNat n = c :: cs ∧ digitValue c ≠ none := by
  have h := natDigits_digits (n + 1) n
  unfold encodeNat at *
  cases hc : natDigits (n + 1) n with
  | nil =>
    exfalso
    simp only [natDigits] at hc
    split at hc
    · cases hc
    · simp at hc
  | cons c cs =>
    rw [hc] at h
    exact ⟨c, cs, rfl, h c (List.mem_cons_self _ _)⟩

theorem parseNumber_encodeInt (n : Int) (d : Char) (rest : List Char)
    (hd : d = ',' ∨ d = '\x7d') :
    parseNumber (encodeInt n ++ d :: rest)
      = some (⟨decide (n < 0), n.natAbs, [], none⟩, d :: rest) := by
  unfold encodeInt
  by_cases hn : n < 0
  · simp only [hn, if_true, List.cons_append, parseNumber, decide_True]
    exact parseUnsigned_encodeNat true _ d rest hd
  · simp only [hn, if_false, decide_False]
    obtain ⟨c, cs, hc, hdig⟩ := encodeNat_head n.natAbs
    have hne : c ≠ '-' := by
      intro h
      subst h
      exact hdig (by decide)
    have := parseUnsigned_encodeNat false n.natAbs d rest hd
    rw [hc] at this ⊢
    simp only [List.cons_append, parseNumber, hne, if_false]
    exact this

end json

namespace json

theorem skipSpace_cons (c : Char) (cs : List Char) (h : isSpace c = false) :
    skipSpace (c :: cs) = c :: cs := by
  simp [skipSpace, h]

theorem encodeInt_head (n : Int) :
    ∃ c cs, encodeInt n = c :: cs ∧ (c = '-' ∨ digitValue c ≠ none) := by
  unfold encodeInt
  by_cases hn : n < 0
  · rw [if_pos hn]
    exact ⟨'-', _, rfl, Or.inl rfl⟩
  · rw [if_neg hn]
    obtain ⟨c, cs, hc, hdig⟩ := encodeNat_head n.natAbs
    exact ⟨c, cs, hc, Or.inr hdig⟩

theorem digit_facts (c : Char) (h : c = '-' ∨ digitValue c ≠ none) :
    isSpace c = false ∧ c ≠ 'n' ∧ c ≠ 't' ∧ c ≠ 'f' ∧ c ≠ '"' ∧ c ≠ '[' ∧ c ≠ '\x7b' := by
  rcases h with h | h
  · subst h; decide
  · refine ⟨?_, ?_, ?_, ?_, ?_, ?_, ?_⟩
    · cases hs : isSpace c with
      | false => rfl
      | true =>
        exfalso
        apply h
        simp only [isSpace, Bool.or_eq_true, decide_eq_true_eq] at hs
        rcases hs with ((hs | hs) | hs) | hs <;> subst hs <;> decide
    all_goals
      intro hc
      subst hc
      exact h (by decide)

theorem parseValue_encodeValue (fuel : Nat) (v : FieldValue) (d : Char) (rest : List Char)
    (hd : d = ',' ∨ d = '\x7d') :
    parseValue (fuel + 1) (encodeValue v ++ d :: rest) = some (v.toJSON, d :: rest) := by
  cases v with
  | string s =>
    have h1 : skipSpace ('"' :: (escapeChars s.data ++ ['"'] ++ d :: rest))
        = '"' :: (escapeChars s.data ++ ['"'] ++ d :: rest) := skipSpace_cons _ _ (by decide)
    simp only [encodeValue, encodeString, List.cons_append, parseValue, h1]
    have h2 : escapeChars s.data ++ ['"'] ++ d :: rest
        = escapeChars s.data ++ ('"' :: d :: rest) := by simp
    rw [h2, parseChars_escapeChars]
    simp [FieldValue.toJSON]
  | bool b =>
    cases b with
    | true =>
      have h1 : skipSpace ('t' :: 'r' :: 'u' :: 'e' :: d :: rest)
          = 't' :: 'r' :: 'u' :: 'e' :: d :: rest := skipSpace_cons _ _ (by decide)
      simp only [encodeValue, List.cons_append, List.nil_append, parseValue, h1]
      simp [expect, FieldValue.toJSON]
    | false =>
      have h1 : skipSpace ('f' :: 'a' :: 'l' :: 's' :: 'e' :: d :: rest)
          = 'f' :: 'a' :: 'l' :: 's' :: 'e' :: d :: rest := skipSpace_cons _ _ (by decide)
      simp only [encodeValue, List.cons_append, List.nil_append, parseValue, h1]
      simp [expect, FieldValue.toJSON]
  | int n =>
    obtain ⟨c, cs, hc, hdig⟩ := encodeInt_head n
    obtain ⟨f1, f2, f3, f4, f5, f6, f7⟩ := digit_facts c hdig
    have hnum := parseNumber_encodeInt n d rest hd
    simp only [encodeValue]
    rw [hc] at hnum ⊢
    simp only [List.cons_append] at hnum ⊢
    simp only [parseValue, skipSpace_cons _ _ f1, f2, f3, f4, f5, f6, f7, if_false, hnum]
    simp [FieldValue.toJSON]

theorem parseMember_encodeMember (fuel : Nat) (m : Field × FieldValue) (d : Char)
    (rest : List Char) (hd : d = ',' ∨ d = '\x7d') :
    parseMember (fuel + 2) (encodeMember m ++ d :: rest)
      = some ((m.1.name, m.2.toJSON), d :: rest) := by
  have h1 : ∀ tail, skipSpace ('"' :: tail) = '"' :: tail :=
    fun tail => skipSpace_cons _ _ (by decide)
  have h2 : ∀ tail, skipSpace (':' :: tail) = ':' :: tail :=
    fun tail => skipSpace_cons _ _ (by decide)
  have h3 : escapeChars m.1.name.data ++ ['"'] ++ ':' :: encodeValue m.2 ++ d :: rest
      = escapeChars m.1.name.data ++ ('"' :: ':' :: (encodeValue m.2 ++ d :: rest)) := by simp
  simp only [encodeMember, encodeString, List.cons_append, parseMember, h1, if_true]
  rw [h3, parseChars_escapeChars]
  simp only [h2, if_true, parseValue_encodeValue fuel m.2 d rest hd]

theorem encodeTail_head (ms : List (Field × FieldValue)) :
    ∃ d rest, encodeTail ms = d :: rest ∧ (d = ',' ∨ d = '\x7d') := by
  cases ms with
  | nil => exact ⟨'\x7d', [], rfl, Or.inr rfl⟩
  | cons m ms => exact ⟨',', _, rfl, Or.inl rfl⟩

theorem parseMembers_close (fuel : Nat) (tail : List Char) :
    parseMembers (fuel + 1) ('\x7d' :: tail) = some ([], tail) := by
  have h1 : skipSpace ('\x7d' :: tail) = '\x7d' :: tail := skipSpace_cons _ _ (by decide)
  simp [parseMembers, h1]

theorem parseMembers_comma (fuel : Nat) (tail : List Char) :
    parseMembers (fuel + 1) (',' :: tail) =
      match parseMember fuel tail with
      | none => none
      | some (m, rest1) =>
        match parseMembers fuel rest1 with
        | none => none
        | some (ms, rest2) => some (m :: ms, rest2) := by
  have h1 : skipSpace (',' :: tail) = ',' :: tail := skipSpace_cons _ _ (by decide)
  have h2 : (',' : Char) ≠ '\x7d' := by decide
  simp only [parseMembers, h1, h2, if_false, if_true]

theorem parseValue_object_empty (fuel : Nat) (tail : List Char) :
    parseValue (fuel + 1) ('\x7b' :: '\x7d' :: tail) = some (JSON.object [], tail) := by
  have h1 : skipSpace ('\x7b' :: '\x7d' :: tail) = '\x7b' :: '\x7d' :: tail :=
    skipSpace_cons _ _ (by decide)
  have h2 : skipSpace ('\x7d' :: tail) = '\x7d' :: tail := skipSpace_cons _ _ (by decide)
  have f1 : ('\x7b' : Char) ≠ 'n' := by decide
  have f2 : ('\x7b' : Char) ≠ 't' := by decide
  have f3 : ('\x7b' : Char) ≠ 'f' := by decide
  have f4 : ('\x7b' : Char) ≠ '"' := by decide
  have f5 : ('\x7b' : Char) ≠ '[' := by decide
  simp only [parseValue, h1, h2, f1, f2, f3, f4, f5, if_false, if_true]

theorem parseValue_object (fuel : Nat) (tail : List Char) :
    parseValue (fuel + 1) ('\x7b' :: '"' :: tail) =
      match parseMember fuel ('"' :: tail) with
      | none => none
      | some (m, rest2) =>
        match parseMembers fuel rest2 with
        | none => none
        | some (ms, rest3) => some (JSON.object (m :: ms), rest3) := by
  have h1 : skipSpace ('\x7b' :: '"' :: tail) = '\x7b' :: '"' :: tail :=
    skipSpace_cons _ _ (by decide)
  have h2 : skipSpace ('"' :: tail) = '"' :: tail := skipSpace_cons _ _ (by decide)
  have f1 : ('\x7b' : Char) ≠ 'n' := by decide
  have f2 : ('\x7b' : Char) ≠ 't' := by decide
  have f3 : ('\x7b' : Char) ≠ 'f' := by decide
  have f4 : ('\x7b' : Char) ≠ '"' := by decide
  have f5 : ('\x7b' : Char) ≠ '[' := by decide
  have f6 : ('"' : Char) ≠ '\x7d' := by decide
  simp only [parseValue, h1, h2, f1, f2, f3, f4, f5, f6, if_false, if_true]

theorem parseMembers_encodeTail (ms : List (Field × FieldValue)) (fuel : Nat)
    (h : ms.length + 2 ≤ fuel) :
    parseMembers fuel (encodeTail ms)
      = some (ms.map (fun m => (m.1.name, m.2.toJSON)), []) := by
  induction ms generalizing fuel with
  | nil =>
    obtain ⟨f, rfl⟩ : ∃ f, fuel = f + 1 := ⟨fuel - 1, by simp at h; omega⟩
    simp only [encodeTail, parseMembers_close, List.map_nil]
  | cons m ms ih =>
    simp only [List.length_cons] at h
    obtain ⟨f, rfl⟩ : ∃ f, fuel = (f + 2) + 1 := ⟨fuel - 3, by omega⟩
    obtain ⟨d, rest, hrest, hd⟩ := encodeTail_head ms
    have hm := parseMember_encodeMember f m d rest hd
    have ih' := ih (f + 2) (by omega)
    rw [hrest] at ih'
    simp only [encodeTail]
    rw [parseMembers_comma, hrest, hm]
    simp only [ih', List.map_cons]

theorem encodeTail_length (ms : List (Field × FieldValue)) :
    ms.length + 1 ≤ (encodeTail ms).length := by
  induction ms with
  | nil => simp [encodeTail]
  | cons m ms ih =>
    simp only [encodeTail, List.length_cons, List.length_append]
    omega

theorem parse_encodeObject (ms : List (Field × FieldValue)) :
    parse (String.mk (encodeObject ms))
      = some (JSON.object (ms.map (fun m => (m.1.name, m.2.toJSON)))) := by
  unfold parse
  have hlen : (String.mk (encodeObject ms)).length = (encodeObject ms).length := rfl
  rw [hlen]
  cases ms with
  | nil =>
    have h2 : (encodeObject []).length = 2 := rfl
    rw [h2]
    simp only [encodeObject, parseValue_object_empty, skipSpace, List.map_nil, if_true]
  | cons m ms =>
    obtain ⟨d, rest, hrest, hd⟩ := encodeTail_head ms
    have hl := encodeTail_length ms
    have hlen2 : (encodeObject (m :: ms)).length
        = (encodeMember m).length + (encodeTail ms).length + 1 := by
      simp only [encodeObject, List.length_cons, List.length_append]
    have hmlen : 1 ≤ (encodeMember m).length := by
      simp [encodeMember, encodeString]
    obtain ⟨f, hf⟩ : ∃ f, (encodeObject (m :: ms)).length = f + 2 ∧ ms.length + 2 ≤ f + 2 :=
      ⟨(encodeObject (m :: ms)).length - 2, by omega, by omega⟩
    rw [hf.1]
    have hm := parseMember_encodeMember f m d rest hd
    have ht := parseMembers_encodeTail ms (f + 2) hf.2
    rw [hrest] at ht
    have hfirst : encodeMember m ++ d :: rest
        = '"' :: (escapeChars m.1.name.data ++ ['"'] ++ ':' :: encodeValue m.2 ++ d :: rest) := by
      simp [encodeMember, encodeString]
    simp only [encodeObject, hrest]
    rw [hfirst] at hm ⊢
    rw [parseValue_object, hm]
    simp only [ht, skipSpace, List.map_cons, if_true]

end json

/-! ## Structs -/

namespace json

theorem Kind.holds_zero (k : Kind) : k.holds k.zero := by
  cases k <;> simp [Kind.holds, Kind.zero]

theorem Kind.zero_isEmpty (k : Kind) : k.zero.isEmpty = true := by
  cases k <;> simp [Kind.zero, FieldValue.isEmpty]

theorem Kind.eq_zero_of_isEmpty (k : Kind) (v : FieldValue) (h : k.holds v)
    (he : v.isEmpty = true) : v = k.zero := by
  cases k <;> cases v <;> simp_all [Kind.holds, Kind.zero, FieldValue.isEmpty]

theorem toInt64_toJSON (n : Int) (h : Kind.int.holds (FieldValue.int n)) :
    Number.toInt64 ⟨decide (n < 0), n.natAbs, [], none⟩ = some n := by
  simp only [Kind.holds] at h
  unfold Number.toInt64
  simp only [and_self, if_true]
  by_cases hn : n < 0
  · simp only [hn, decide_True, if_true]
    have h1 : n.natAbs ≤ 2 ^ 63 := by omega
    simp only [h1, if_true, Option.some.injEq]
    omega
  · simp only [hn, decide_False, Bool.false_eq_true, if_false]
    have h1 : n.natAbs < 2 ^ 63 := by omega
    simp only [h1, if_true, Option.some.injEq]
    omega

theorem decodeField_toJSON (k : Kind) (old v : FieldValue) (h : k.holds v) :
    decodeField k old v.toJSON = (v, []) := by
  cases k <;> cases v <;> simp_all [Kind.holds, decodeField, FieldValue.toJSON]
  rename_i n
  have := toInt64_toJSON n (by simpa [Kind.holds] using h)
  simp [this]

theorem decodeField_holds (k : Kind) (old : FieldValue) (v : JSON) (h : k.holds old) :
    k.holds (decodeField k old v).1 := by
  cases v with
  | null => simpa [decodeField] using h
  | bool b =>
    simp only [decodeField]
    split
    · rename_i hk; subst hk; simp [Kind.holds]
    · exact h
  | string s =>
    simp only [decodeField]
    split
    · rename_i hk; subst hk; simp [Kind.holds]
    · exact h
  | number n =>
    simp only [decodeField]
    split
    · rename_i hk
      subst hk
      cases hn : n.toInt64 with
      | none => simpa using h
      | some i =>
        simp only [Kind.holds]
        unfold Number.toInt64 at hn
        split at hn
        · split at hn
          · split at hn
            · simp only [Option.some.injEq] at hn
              omega
            · cases hn
          · split at hn
            · simp only [Option.some.injEq] at hn
              omega
            · cases hn
        · cases hn
    · exact h
  | array items => simpa [decodeField] using h
  | object members => simpa [decodeField] using h

theorem forall₂_set {α β : Type} (R : α → β → Prop) (l1 : List α) (l2 : List β) (i : Nat)
    (a : α) (b : β) (h : List.Forall₂ R l1 l2) (ha : l1.get? i = some a) (hb : R a b) :
    List.Forall₂ R l1 (l2.set i b) := by
  induction h generalizing i with
  | nil => simp at ha
  | cons hab hrest ih =>
    cases i with
    | zero =>
      simp only [List.get?_cons_zero, Option.some.injEq] at ha
      subst ha
      exact List.Forall₂.cons hb hrest
    | succ i =>
      simp only [List.get?_cons_succ] at ha
      exact List.Forall₂.cons hab (ih i ha)

theorem forall₂_get {α β : Type} (R : α → β → Prop) (l1 : List α) (l2 : List β) (i : Nat)
    (a : α) (b : β) (h : List.Forall₂ R l1 l2) (ha : l1.get? i = some a)
    (hb : l2.get? i = some b) : R a b := by
  induction h generalizing i with
  | nil => simp at ha
  | cons hab hrest ih =>
    cases i with
    | zero =>
      simp only [List.get?_cons_zero, Option.some.injEq] at ha hb
      subst ha hb
      exact hab
    | succ i =>
      simp only [List.get?_cons_succ] at ha hb
      exact ih i ha hb

theorem structMember_typed (T : StructType) (e : String × JSON) (s : Struct)
    (h : T.typed s) : T.typed (structMember T e s).1 := by
  unfold structMember
  split
  · exact h
  · rename_i i hi
    split
    · rename_i f old hf hold
      exact forall₂_set _ _ _ i f _ h hf
        (decodeField_holds f.kind old e.2 (forall₂_get _ _ _ i f old h hf hold))
    · exact h

theorem structMembers_typed (T : StructType) (ms : List (String × JSON)) (s : Struct)
    (h : T.typed s) : T.typed (structMembers T ms s).1 := by
  induction ms generalizing s with
  | nil => exact h
  | cons e es ih =>
    simp only [structMembers]
    exact ih _ (structMember_typed T e s h)

theorem zero_typed (T : StructType) : T.typed T.zero := by
  unfold StructType.typed StructType.zero
  induction T.fields with
  | nil => exact List.Forall₂.nil
  | cons f fs ih => exact List.Forall₂.cons (Kind.holds_zero f.kind) ih

theorem findIndex_append (p : Field → Bool) (pre post : List Field) (f : Field)
    (hpre : ∀ g ∈ pre, p g = false) (hf : p f = true) :
    findIndex p (pre ++ f :: post) = some pre.length := by
  induction pre with
  | nil => simp [findIndex, hf]
  | cons g gs ih =>
    have hg := hpre g (List.mem_cons_self _ _)
    simp only [List.cons_append, findIndex, hg, Bool.false_eq_true, if_false, List.length_cons,
      List.append_eq]
    rw [ih (fun g' hg' => hpre g' (List.mem_cons_of_mem _ hg'))]
    rfl

theorem set_append_length {α : Type} (l1 l2 : List α) (a b : α) :
    (l1 ++ a :: l2).set l1.length b = l1 ++ b :: l2 := by
  induction l1 with
  | nil => rfl
  | cons x xs ih => simp [List.set, ih]

theorem get?_append_length {α : Type} (l1 l2 : List α) (a : α) :
    (l1 ++ a :: l2).get? l1.length = some a := by
  induction l1 with
  | nil => rfl
  | cons x xs ih => simpa using ih

theorem structMembers_emitted (T : StructType) (hnd : (T.fields.map Field.name).Nodup)
    (post : List Field) :
    ∀ (pre : List Field) (spre spost : Struct), T.fields = pre ++ post →
      pre.length = spre.length → List.Forall₂ (fun f v => f.kind.holds v) post spost →
      structMembers T ((emitted post spost).map (fun m => (m.1.name, m.2.toJSON)))
          (spre ++ post.map (fun f => f.kind.zero))
        = (spre ++ spost, []) := by
  induction post with
  | nil =>
    intro pre spre spost _ _ htyped
    cases htyped
    simp [emitted, structMembers]
  | cons f post ih =>
    intro pre spre spost hT hlen htyped
    cases htyped with
    | cons hfv hrest =>
      rename_i v spost
      have hT' : T.fields = (pre ++ [f]) ++ post := by simp [hT]
      have hlen' : (pre ++ [f]).length = (spre ++ [v]).length := by simp [hlen]
      have ih' := ih (pre ++ [f]) (spre ++ [v]) spost hT' hlen' hrest
      simp only [List.append_assoc, List.singleton_append] at ih'
      simp only [emitted, List.map_cons]
      by_cases hom : (f.omitEmpty && v.isEmpty) = true
      · simp only [hom, if_true]
        have hv : v = f.kind.zero := by
          simp only [Bool.and_eq_true] at hom
          exact Kind.eq_zero_of_isEmpty _ _ hfv hom.2
        rw [← hv]
        exact ih'
      · simp only [hom, Bool.false_eq_true, if_false, List.map_cons, structMembers]
        have hfind : T.findField f.name = some pre.length := by
          unfold StructType.findField
          rw [hT, findIndex_append _ pre post f ?_ (by simp)]
          intro g hg
          simp only [decide_eq_false_iff_not]
          intro hname
          rw [hT, List.map_append, List.map_cons] at hnd
          have := (List.nodup_append.1 hnd).2.2
          exact this (List.mem_map.2 ⟨g, hg, rfl⟩) (by simp [hname])
        have hmem : structMember T (f.name, v.toJSON) (spre ++ f.kind.zero :: post.map (fun f => f.kind.zero))
            = (spre ++ v :: post.map (fun f => f.kind.zero), []) := by
          unfold structMember
          simp only [hfind]
          rw [hT, get?_append_length, hlen, get?_append_length]
          simp only [decodeField_toJSON f.kind f.kind.zero v hfv, set_append_length]
        rw [hmem]
        simp only [ih', List.nil_append]

theorem structMembers_emitted_all (T : StructType) (hnd : (T.fields.map Field.name).Nodup)
    (s : Struct) (h : T.typed s) :
    structMembers T ((emitted T.fields s).map (fun m => (m.1.name, m.2.toJSON))) T.zero
      = (s, []) := by
  have := structMembers_emitted T hnd T.fields [] [] s rfl rfl h
  simpa [StructType.zero] using this

theorem emitted_mem (fs : List Field) (s : Struct) (f : Field) (v : FieldValue)
    (h : (f, v) ∈ emitted fs s) :
    ∃ i, fs.get? i = some f ∧ s.get? i = some v ∧ ¬ (f.omitEmpty = true ∧ v.isEmpty = true) := by
  induction fs generalizing s with
  | nil => simp [emitted] at h
  | cons g gs ih =>
    cases s with
    | nil => simp [emitted] at h
    | cons w ws =>
      simp only [emitted] at h
      by_cases hom : (g.omitEmpty && w.isEmpty) = true
      · simp only [hom, if_true] at h
        obtain ⟨i, h1, h2, h3⟩ := ih ws h
        exact ⟨i + 1, by simpa using h1, by simpa using h2, h3⟩
      · simp only [hom, Bool.false_eq_true, if_false, List.mem_cons, Prod.mk.injEq] at h
        rcases h with ⟨hf, hv⟩ | h
        · subst hf hv
          exact ⟨0, rfl, rfl, by simpa using hom⟩
        · obtain ⟨i, h1, h2, h3⟩ := ih ws h
          exact ⟨i + 1, by simpa using h1, by simpa using h2, h3⟩

theorem structMember_get_other (T : StructType) (e : String × JSON) (s : Struct) (i : Nat)
    (h : T.findField e.1 ≠ some i) : (structMember T e s).1.get? i = s.get? i := by
  unfold structMember
  split
  · rfl
  · rename_i j hj
    split
    · have hne : j ≠ i := by
        intro hji
        subst hji
        exact h hj
      simp only [List.get?_eq_getElem?]
      exact List.getElem?_set_ne hne
    · rfl

theorem structMembers_get_other (T : StructType) (ms : List (String × JSON)) (s : Struct)
    (i : Nat) (h : ∀ e ∈ ms, T.findField e.1 ≠ some i) :
    (structMembers T ms s).1.get? i = s.get? i := by
  induction ms generalizing s with
  | nil => rfl
  | cons e es ih =>
    simp only [structMembers]
    rw [ih _ (fun e' he' => h e' (List.mem_cons_of_mem _ he'))]
    exact structMember_get_other T e s i (h e (List.mem_cons_self _ _))

theorem zero_get (T : StructType) (i : Nat) (f : Field) (h : T.fields.get? i = some f) :
    T.zero.get? i = some f.kind.zero := by
  unfold StructType.zero
  simp only [List.get?_eq_getElem?] at h ⊢
  simp [List.getElem?_map, h]

end json

/-! ## Export -/

namespace hardware

theorem UnmarshalStruct_typed (T : StructType) (data : String) (s : Struct) (h : T.typed s) :
    T.typed (UnmarshalStruct T data s).1 := by
  unfold UnmarshalStruct
  split
  · exact h
  · exact h
  · exact structMembers_typed T _ s h
  · exact h

theorem UnmarshalStruct_cases (T : StructType) (data : String) (s : Struct)
    (h : (UnmarshalStruct T data s).2 = none) :
    (json.parse data = some JSON.null ∧ (UnmarshalStruct T data s).1 = s) ∨
    ∃ input, json.parse data = some (JSON.object input) ∧
      (UnmarshalStruct T data s).1 = (structMembers T input s).1 := by
  unfold UnmarshalStruct at h ⊢
  split at h
  · cases h
  · rename_i hp
    left
    rw [hp]
    exact ⟨rfl, rfl⟩
  · rename_i members hp
    right
    rw [hp]
    exact ⟨members, rfl, rfl⟩
  · cases h

theorem Unmarshal_exported (T : StructType) (hT : (T.fields.map Field.name).Nodup)
    (s : Struct) (hs : T.typed s) :
    UnmarshalStruct T (String.mk (encodeObject (emitted T.fields s))) T.zero = (s, none) := by
  unfold UnmarshalStruct
  rw [parse_encodeObject]
  simp only [structMembers_emitted_all T hT s hs, firstError]

theorem Export_of_decoded (T : StructType) (hw : hardwareCacher)
    (h : (UnmarshalStruct T hw.hardware.JSON T.zero).2 = none) :
    hardwareCacher.Export T hw = Except.ok (String.mk (encodeObject
      (emitted T.fields (UnmarshalStruct T hw.hardware.JSON T.zero).1))) := by
  unfold hardwareCacher.Export
  split
  · rename_i err hexp
    rw [hexp] at h
    cases h
  · rename_i exported hexp
    rw [hexp]
    rfl

/-- C4: when the document of a Legacy record decodes into the projection type without
error, `Export` returns the text of a JSON object whose keys are all names of fields of
that type: a key that is not the name of a field is absent from it, and every key it
has is the name of a field that either is not tagged `omitempty`, so that the type
requires it, or is present in the input, some member of the input document decoding
into it. -/
theorem Export_keys_known (exportedHardwareCacher : StructType) (hw : hardwareCacher)
    (h : (UnmarshalStruct exportedHardwareCacher hw.hardware.JSON
      exportedHardwareCacher.zero).2 = none) :
    ∃ (bytes : String) (out : List (String × JSON)),
      hardwareCacher.Export exportedHardwareCacher hw = Except.ok bytes ∧
      json.parse bytes = some (JSON.object out) ∧
      (∀ e ∈ out, e.1 ∈ exportedHardwareCacher.fields.map Field.name) ∧
      (∀ k, k ∉ exportedHardwareCacher.fields.map Field.name → k ∉ out.map Prod.fst) ∧
      (∀ e ∈ out, ∃ i f, exportedHardwareCacher.fields.get? i = some f ∧ f.name = e.1 ∧
        (f.omitEmpty = false ∨
          ∃ input, json.parse hw.hardware.JSON = some (JSON.object input) ∧
            ∃ e' ∈ input, exportedHardwareCacher.findField e'.1 = some i)) := by
  have hexp := Export_of_decoded exportedHardwareCacher hw h
  have herr := h
  have hkey : ∀ e ∈ (emitted exportedHardwareCacher.fields
        (UnmarshalStruct exportedHardwareCacher hw.hardware.JSON
          exportedHardwareCacher.zero).1).map (fun m => (m.1.name, m.2.toJSON)),
      ∃ i f, exportedHardwareCacher.fields.get? i = some f ∧ f.name = e.1 ∧
        (f.omitEmpty = false ∨
          ∃ input, json.parse hw.hardware.JSON = some (JSON.object input) ∧
            ∃ e' ∈ input, exportedHardwareCacher.findField e'.1 = some i) := by
    intro e he
    obtain ⟨⟨f, v⟩, hm, rfl⟩ := List.mem_map.1 he
    obtain ⟨i, hf, hv, hne⟩ := emitted_mem _ _ f v hm
    refine ⟨i, f, hf, rfl, ?_⟩
    cases hom : f.omitEmpty with
    | false => exact Or.inl rfl
    | true =>
      right
      have hnonempty : v.isEmpty ≠ true := fun hv' => hne ⟨hom, hv'⟩
      rcases UnmarshalStruct_cases exportedHardwareCacher hw.hardware.JSON
          exportedHardwareCacher.zero herr with ⟨_, hs⟩ | ⟨input, hp, hs⟩
      · exfalso
        rw [hs, zero_get exportedHardwareCacher i f hf] at hv
        simp only [Option.some.injEq] at hv
        exact hnonempty (hv ▸ Kind.zero_isEmpty f.kind)
      · refine ⟨input, hp, ?_⟩
        by_contra hnone
        push_neg at hnone
        rw [hs, structMembers_get_other exportedHardwareCacher input _ i hnone,
          zero_get exportedHardwareCacher i f hf] at hv
        simp only [Option.some.injEq] at hv
        exact hnonempty (hv ▸ Kind.zero_isEmpty f.kind)
  have hin : ∀ e ∈ (emitted exportedHardwareCacher.fields
        (UnmarshalStruct exportedHardwareCacher hw.hardware.JSON
          exportedHardwareCacher.zero).1).map (fun m => (m.1.name, m.2.toJSON)),
      e.1 ∈ exportedHardwareCacher.fields.map Field.name := by
    intro e he
    obtain ⟨i, f, hf, hname, _⟩ := hkey e he
    rw [← hname]
    exact List.mem_map.2 ⟨f, List.get?_mem hf, rfl⟩
  refine ⟨_, _, hexp, parse_encodeObject _, hin, ?_, hkey⟩
  intro k hk hmem
  obtain ⟨e, he, rfl⟩ := List.mem_map.1 hmem
  exact hk (hin e he)

/-- C4, on the sample Legacy record: its `name` member, which is no
field of the type, is absent from what `Export` returns, and so is the field `comment`,
tagged `omitempty` and absent from the document. -/
theorem Export_keys_known_witness :
    hardwareCacher.Export sample.exportedHardwareCacher ⟨sample.cacherRecord⟩
      = Except.ok sample.exported ∧
    ∃ (bytes : String) (out : List (String × JSON)),
      hardwareCacher.Export sample.exportedHardwareCacher ⟨sample.cacherRecord⟩
        = Except.ok bytes ∧
      json.parse bytes = some (JSON.object out) ∧
      (∀ e ∈ out, e.1 ∈ sample.exportedHardwareCacher.fields.map Field.name) ∧
      (∀ k, k ∉ sample.exportedHardwareCacher.fields.map Field.name → k ∉ out.map Prod.fst) ∧
      (∀ e ∈ out, ∃ i f, sample.exportedHardwareCacher.fields.get? i = some f ∧ f.name = e.1 ∧
        (f.omitEmpty = false ∨
          ∃ input, json.parse sample.cacherRecord.JSON = some (JSON.object input) ∧
            ∃ e' ∈ input, sample.exportedHardwareCacher.findField e'.1 = some i)) := by
  have hrun : hardwareCacher.Export sample.exportedHardwareCacher ⟨sample.cacherRecord⟩
      = Except.ok sample.exported := by
    set_option maxRecDepth 100000 in rfl
  have hdec : (UnmarshalStruct sample.exportedHardwareCacher sample.cacherRecord.JSON
      sample.exportedHardwareCacher.zero).2 = none := by
    set_option maxRecDepth 100000 in rfl
  exact ⟨hrun, Export_keys_known sample.exportedHardwareCacher ⟨sample.cacherRecord⟩ hdec⟩

/-- C5: when the document of a Legacy record decodes into the projection type without
error, `Export` returns bytes that decode into that type, without error, to exactly the
struct the original document decodes to, so every field keeps its value; and `Export`
on a record whose document is those bytes returns the same bytes. The names of the
fields of the type are distinct, as `encoding/json` has them. -/
theorem Export_roundtrip (exportedHardwareCacher : StructType) (hw : hardwareCacher)
    (hT : (exportedHardwareCacher.fields.map Field.name).Nodup)
    (h : (UnmarshalStruct exportedHardwareCacher hw.hardware.JSON
      exportedHardwareCacher.zero).2 = none) :
    ∃ bytes : String,
      hardwareCacher.Export exportedHardwareCacher hw = Except.ok bytes ∧
      UnmarshalStruct exportedHardwareCacher bytes exportedHardwareCacher.zero
        = ((UnmarshalStruct exportedHardwareCacher hw.hardware.JSON
            exportedHardwareCacher.zero).1, none) ∧
      hardwareCacher.Export exportedHardwareCacher ⟨⟨bytes⟩⟩ = Except.ok bytes := by
  have hexp := Export_of_decoded exportedHardwareCacher hw h
  have htyped := UnmarshalStruct_typed exportedHardwareCacher hw.hardware.JSON
    exportedHardwareCacher.zero (zero_typed exportedHardwareCacher)
  have hround := Unmarshal_exported exportedHardwareCacher hT _ htyped
  refine ⟨_, hexp, hround, ?_⟩
  unfold hardwareCacher.Export
  simp only [hround, MarshalStruct]

/-- C5, on the sample Legacy record: the exported bytes decode to the
values of the original document, and exporting them again returns them unchanged. -/
theorem Export_roundtrip_witness :
    hardwareCacher.Export sample.exportedHardwareCacher ⟨sample.cacherRecord⟩
      = Except.ok sample.exported ∧
    (UnmarshalStruct sample.exportedHardwareCacher sample.cacherRecord.JSON
        sample.exportedHardwareCacher.zero).1
      = [FieldValue.string "8978e7d4-1a55-4845-8a66-a5259236b104", FieldValue.string "x86_64",
         FieldValue.string "provisioning", FieldValue.bool false,
         FieldValue.string "t1.small.x86", FieldValue.string "onprem", FieldValue.string "",
         FieldValue.int 4, FieldValue.string ""] ∧
    ∃ bytes : String,
      hardwareCacher.Export sample.exportedHardwareCacher ⟨sample.cacherRecord⟩
        = Except.ok bytes ∧
      UnmarshalStruct sample.exportedHardwareCacher bytes sample.exportedHardwareCacher.zero
        = ((UnmarshalStruct sample.exportedHardwareCacher sample.cacherRecord.JSON
            sample.exportedHardwareCacher.zero).1, none) ∧
      hardwareCacher.Export sample.exportedHardwareCacher ⟨⟨bytes⟩⟩ = Except.ok bytes := by
  have hrun : hardwareCacher.Export sample.exportedHardwareCacher ⟨sample.cacherRecord⟩
      = Except.ok sample.exported := by
    set_option maxRecDepth 100000 in rfl
  have hdec : UnmarshalStruct sample.exportedHardwareCacher sample.cacherRecord.JSON
        sample.exportedHardwareCacher.zero
      = ([FieldValue.string "8978e7d4-1a55-4845-8a66-a5259236b104", FieldValue.string "x86_64",
         FieldValue.string "provisioning", FieldValue.bool false,
         FieldValue.string "t1.small.x86", FieldValue.string "onprem", FieldValue.string "",
         FieldValue.int 4, FieldValue.string ""], none) := by
    set_option maxRecDepth 100000 in rfl
  exact ⟨hrun, by rw [hdec],
    Export_roundtrip sample.exportedHardwareCacher ⟨sample.cacherRecord⟩ (by decide)
      (by rw [hdec])⟩

end hardware

/-! ## The fuel of the parser

The parser counts its nested calls down from the length of the text plus one. That is
always enough: a text that some amount of fuel parses is parsed by `parse`. -/

namespace json

theorem flush_snd (p : Option Nat) (x : Option (List Char × List Char))
    (r : List Char × List Char) (h : flush p x = some r) :
    ∃ r', x = some r' ∧ r'.2.length = r.2.length := by
  cases p <;> cases x <;> simp_all [flush]
  subst h; rfl

theorem emit_snd (c : Char) (x : Option (List Char × List Char)) (r : List Char × List Char)
    (h : emit c x = some r) : ∃ r', x = some r' ∧ r'.2.length = r.2.length := by
  cases x <;> simp_all [emit]
  subst h; rfl

theorem parseChars_length (n : Nat) : ∀ (cs : List Char), cs.length ≤ n → ∀ (p : Option Nat)
    (r : List Char × List Char), parseChars p cs = some r → r.2.length < cs.length := by
  induction n with
  | zero =>
    intro cs hcs p r h
    have : cs = [] := List.length_eq_zero.1 (Nat.le_zero.1 hcs)
    subst this
    rw [parseChars.eq_def] at h
    simp at h
  | succ n ih =>
    intro cs hcs p r h
    rw [parseChars.eq_def] at h
    split at h
    · cases h
    · rename_i pending c rest
      simp only [List.length_cons] at hcs ⊢
      split at h
      · obtain ⟨r', hr', hlen⟩ := flush_snd _ _ _ h
        simp only [Option.some.injEq] at hr'
        subst hr'
        simp only at hlen
        omega
      · split at h
        · split at h
          · cases h
          · rename_i e rest1
            simp only [List.length_cons] at hcs ⊢
            split at h
            · split at h
              · rename_i a b c1 d rest2
                simp only [List.length_cons] at hcs ⊢
                split at h
                · cases h
                · split at h
                  · obtain ⟨r', hr', hlen⟩ := flush_snd _ _ _ h
                    have := ih rest2 (by omega) _ _ hr'
                    omega
                  · split at h
                    · split at h
                      · obtain ⟨r', hr', hlen⟩ := emit_snd _ _ _ h
                        have := ih rest2 (by omega) _ _ hr'
                        omega
                      · obtain ⟨r', hr', hlen⟩ := emit_snd _ _ _ h
                        have := ih rest2 (by omega) _ _ hr'
                        omega
                    · obtain ⟨r1, hr1, hlen1⟩ := flush_snd _ _ _ h
                      obtain ⟨r', hr', hlen⟩ := emit_snd _ _ _ hr1
                      have := ih rest2 (by omega) _ _ hr'
                      omega
              · cases h
            · split at h
              · obtain ⟨r1, hr1, hlen1⟩ := flush_snd _ _ _ h
                obtain ⟨r', hr', hlen⟩ := emit_snd _ _ _ hr1
                have := ih rest1 (by omega) _ _ hr'
                omega
              · cases h
        · split at h
          · cases h
          · obtain ⟨r1, hr1, hlen1⟩ := flush_snd _ _ _ h
            obtain ⟨r', hr', hlen⟩ := emit_snd _ _ _ hr1
            have := ih rest (by omega) _ _ hr'
            omega

theorem skipSpace_length (cs : List Char) : (skipSpace cs).length ≤ cs.length := by
  induction cs with
  | nil => simp [skipSpace]
  | cons c cs ih =>
    simp only [skipSpace]
    split
    · simp only [List.length_cons]; omega
    · exact Nat.le_refl _

theorem takeDigits_length (cs : List Char) : (takeDigits cs).2.length ≤ cs.length := by
  induction cs with
  | nil => simp [takeDigits]
  | cons c cs ih =>
    simp only [takeDigits]
    split
    · simp only [List.length_cons]; omega
    · exact Nat.le_refl _

theorem parseInt_length (cs : List Char) (r : Nat × List Char) (h : parseInt cs = some r) :
    r.2.length ≤ cs.length := by
  unfold parseInt at h
  have hl := takeDigits_length cs
  split at h
  · cases h
  · rename_i d rest heq
    simp only [Option.some.injEq] at h
    subst h
    rw [heq] at hl
    exact hl
  · rename_i d ds rest hne heq
    rw [heq] at hl
    split at h
    · simp only [Option.some.injEq] at h
      subst h
      simp only [List.length_drop]
      omega
    · simp only [Option.some.injEq] at h
      subst h
      exact hl

theorem parseFrac_length (cs : List Char) (r : List Nat × List Char)
    (h : parseFrac cs = some r) : r.2.length ≤ cs.length := by
  unfold parseFrac at h
  split at h
  · rename_i p rest
    split at h
    · have hl := takeDigits_length rest
      split at h
      · cases h
      · rename_i ds rest1 hne heq
        simp only [Option.some.injEq] at h
        subst h
        rw [heq] at hl
        simp only [List.length_cons]
        simp only at hl
        omega
    · simp only [Option.some.injEq] at h
      subst h
      exact Nat.le_refl _
  · simp only [Option.some.injEq] at h
    subst h
    exact Nat.le_refl _

theorem parseExp_length (cs : List Char) (r : Option Int × List Char)
    (h : parseExp cs = some r) : r.2.length ≤ cs.length := by
  unfold parseExp at h
  split at h
  · rename_i e rest
    split at h
    · split at h
      · rename_i s rest1
        split at h
        · have hl := takeDigits_length rest1
          split at h
          · cases h
          · rename_i ds rest2 hne heq
            simp only [Option.some.injEq] at h
            subst h
            rw [heq] at hl
            simp only [List.length_cons]
            simp only at hl
            omega
        · split at h
          · have hl := takeDigits_length rest1
            split at h
            · cases h
            · rename_i ds rest2 hne heq
              simp only [Option.some.injEq] at h
              subst h
              rw [heq] at hl
              simp only [List.length_cons]
              simp only at hl
              omega
          · have hl := takeDigits_length (s :: rest1)
            split at h
            · cases h
            · rename_i ds rest2 hne heq
              simp only [Option.some.injEq] at h
              subst h
              rw [heq] at hl
              simp only [List.length_cons] at hl ⊢
              omega
      · cases h
    · simp only [Option.some.injEq] at h
      subst h
      exact Nat.le_refl _
  · simp only [Option.some.injEq] at h
    subst h
    exact Nat.le_refl _

theorem parseUnsigned_length (neg : Bool) (cs : List Char) (r : Number × List Char)
    (h : parseUnsigned neg cs = some r) : r.2.length ≤ cs.length := by
  unfold parseUnsigned at h
  split at h
  · cases h
  · rename_i i rest hi
    split at h
    · cases h
    · rename_i f rest1 hf
      split at h
      · cases h
      · rename_i e rest2 he
        simp only [Option.some.injEq] at h
        subst h
        have h1 := parseInt_length _ _ hi
        have h2 := parseFrac_length _ _ hf
        have h3 := parseExp_length _ _ he
        simp only at h1 h2 h3 ⊢
        omega

theorem parseNumber_length (cs : List Char) (r : Number × List Char)
    (h : parseNumber cs = some r) : r.2.length ≤ cs.length := by
  unfold parseNumber at h
  split at h
  · rename_i c rest
    split at h
    · have := parseUnsigned_length _ _ _ h
      simp only [List.length_cons]
      omega
    · exact parseUnsigned_length _ _ _ h
  · cases h

theorem expect_length (lit cs rest : List Char) (h : expect lit cs = some rest) :
    rest.length ≤ cs.length := by
  unfold expect at h
  split at h
  · simp only [Option.some.injEq] at h
    subst h
    simp only [List.length_drop]
    omega
  · cases h

theorem parse_length (f : Nat) :
    (∀ cs r, parseValue f cs = some r → r.2.length ≤ cs.length) ∧
    (∀ cs r, parseItems f cs = some r → r.2.length ≤ cs.length) ∧
    (∀ cs r, parseMember f cs = some r → r.2.length ≤ cs.length) ∧
    (∀ cs r, parseMembers f cs = some r → r.2.length ≤ cs.length) := by
  induction f with
  | zero =>
    refine ⟨?_, ?_, ?_, ?_⟩ <;> intro cs r h
    · simp [parseValue] at h
    · simp [parseItems] at h
    · simp [parseMember] at h
    · simp [parseMembers] at h
  | succ f ih =>
    obtain ⟨ihv, ihi, ihm, ihms⟩ := ih
    refine ⟨?_, ?_, ?_, ?_⟩ <;> intro cs r h
    · rw [parseValue] at h
      have hs := skipSpace_length cs
      split at h
      · cases h
      · rename_i c rest hskip
        rw [hskip] at hs
        simp only [List.length_cons] at hs
        split at h
        · simp only [Option.map_eq_some'] at h
          obtain ⟨y, hy, rfl⟩ := h
          have := expect_length _ _ _ hy
          simp only
          omega
        split at h
        · simp only [Option.map_eq_some'] at h
          obtain ⟨y, hy, rfl⟩ := h
          have := expect_length _ _ _ hy
          simp only
          omega
        split at h
        · simp only [Option.map_eq_some'] at h
          obtain ⟨y, hy, rfl⟩ := h
          have := expect_length _ _ _ hy
          simp only
          omega
        split at h
        · simp only [Option.map_eq_some'] at h
          obtain ⟨y, hy, rfl⟩ := h
          have := parseChars_length rest.length rest (Nat.le_refl _) _ _ hy
          simp only
          omega
        split at h
        · have hs1 := skipSpace_length rest
          split at h
          · cases h
          · rename_i d rest1 hskip1
            rw [hskip1] at hs1
            simp only [List.length_cons] at hs1
            split at h
            · simp only [Option.some.injEq] at h
              subst h
              simp only
              omega
            · split at h
              · cases h
              · rename_i v rest2 hv
                have h2 := ihv _ _ hv
                simp only [List.length_cons] at h2
                split at h
                · cases h
                · rename_i vs rest3 hvs
                  have h3 := ihi _ _ hvs
                  simp only [Option.some.injEq] at h
                  subst h
                  simp only at h3 ⊢
                  omega
        split at h
        · have hs1 := skipSpace_length rest
          split at h
          · cases h
          · rename_i d rest1 hskip1
            rw [hskip1] at hs1
            simp only [List.length_cons] at hs1
            split at h
            · simp only [Option.some.injEq] at h
              subst h
              simp only
              omega
            · split at h
              · cases h
              · rename_i m rest2 hm
                have h2 := ihm _ _ hm
                simp only [List.length_cons] at h2
                split at h
                · cases h
                · rename_i ms rest3 hms
                  have h3 := ihms _ _ hms
                  simp only [Option.some.injEq] at h
                  subst h
                  simp only at h3 ⊢
                  omega
        · simp only [Option.map_eq_some'] at h
          obtain ⟨y, hy, rfl⟩ := h
          have := parseNumber_length _ _ hy
          simp only [List.length_cons] at this ⊢
          omega
    · rw [parseItems] at h
      have hs := skipSpace_length cs
      split at h
      · cases h
      · rename_i c rest hskip
        rw [hskip] at hs
        simp only [List.length_cons] at hs
        split at h
        · simp only [Option.some.injEq] at h
          subst h
          simp only
          omega
        split at h
        · split at h
          · cases h
          · rename_i v rest1 hv
            have h2 := ihv _ _ hv
            split at h
            · cases h
            · rename_i vs rest2 hvs
              have h3 := ihi _ _ hvs
              simp only [Option.some.injEq] at h
              subst h
              simp only at h2 h3 ⊢
              omega
        · cases h
    · rw [parseMember] at h
      have hs := skipSpace_length cs
      split at h
      · cases h
      · rename_i q rest hskip
        rw [hskip] at hs
        simp only [List.length_cons] at hs
        split at h
        · split at h
          · cases h
          · rename_i k rest1 hk
            have h1 := parseChars_length rest.length rest (Nat.le_refl _) _ _ hk
            have hs1 := skipSpace_length rest1
            split at h
            · cases h
            · rename_i colon rest2 hskip1
              rw [hskip1] at hs1
              simp only [List.length_cons] at hs1
              split at h
              · split at h
                · cases h
                · rename_i v rest3 hv
                  have h3 := ihv _ _ hv
                  simp only [Option.some.injEq] at h
                  subst h
                  simp only at h1 h3 ⊢
                  omega
              · cases h
        · cases h
    · rw [parseMembers] at h
      have hs := skipSpace_length cs
      split at h
      · cases h
      · rename_i c rest hskip
        rw [hskip] at hs
        simp only [List.length_cons] at hs
        split at h
        · simp only [Option.some.injEq] at h
          subst h
          simp only
          omega
        split at h
        · split at h
          · cases h
          · rename_i m rest1 hm
            have h2 := ihm _ _ hm
            split at h
            · cases h
            · rename_i ms rest2 hms
              have h3 := ihms _ _ hms
              simp only [Option.some.injEq] at h
              subst h
              simp only at h2 h3 ⊢
              omega
        · cases h

theorem parse_fuel (n : Nat) :
    (∀ cs f r, cs.length ≤ n → parseValue f cs = some r → parseValue (n + 1) cs = some r) ∧
    (∀ cs f r, cs.length ≤ n → parseItems f cs = some r → parseItems (n + 1) cs = some r) ∧
    (∀ cs f r, cs.length ≤ n → parseMember f cs = some r → parseMember (n + 1) cs = some r) ∧
    (∀ cs f r, cs.length ≤ n → parseMembers f cs = some r → parseMembers (n + 1) cs = some r) := by
  induction n with
  | zero =>
    refine ⟨?_, ?_, ?_, ?_⟩ <;> intro cs f r hlen h <;>
      have hcs : cs = [] := List.length_eq_zero.1 (Nat.le_zero.1 hlen) <;> subst hcs <;>
      cases f
    · simp [parseValue] at h
    · simp [parseValue, skipSpace] at h
    · simp [parseItems] at h
    · simp [parseItems, skipSpace] at h
    · simp [parseMember] at h
    · simp [parseMember, skipSpace] at h
    · simp [parseMembers] at h
    · simp [parseMembers, skipSpace] at h
  | succ n ih =>
    obtain ⟨ihv, ihi, ihm, ihms⟩ := ih
    refine ⟨?_, ?_, ?_, ?_⟩ <;> intro cs f r hlen h
    · cases f with
      | zero => simp [parseValue] at h
      | succ f =>
        rw [parseValue] at h ⊢
        have hs := skipSpace_length cs
        cases hskip : skipSpace cs with
        | nil => simp only [hskip] at h; cases h
        | cons c rest =>
          simp only [hskip] at h hs ⊢
          simp only [List.length_cons] at hs
          by_cases h1 : c = 'n'
          · rw [if_pos h1] at h ⊢; exact h
          rw [if_neg h1] at h ⊢
          by_cases h2 : c = 't'
          · rw [if_pos h2] at h ⊢; exact h
          rw [if_neg h2] at h ⊢
          by_cases h3 : c = 'f'
          · rw [if_pos h3] at h ⊢; exact h
          rw [if_neg h3] at h ⊢
          by_cases h4 : c = '"'
          · rw [if_pos h4] at h ⊢; exact h
          rw [if_neg h4] at h ⊢
          by_cases h5 : c = '['
          · rw [if_pos h5] at h ⊢
            have hs1 := skipSpace_length rest
            cases hskip1 : skipSpace rest with
            | nil => simp only [hskip1] at h; cases h
            | cons d rest1 =>
              simp only [hskip1] at h hs1 ⊢
              simp only [List.length_cons] at hs1
              by_cases h6 : d = ']'
              · rw [if_pos h6] at h ⊢; exact h
              rw [if_neg h6] at h ⊢
              cases hv : parseValue f (d :: rest1) with
              | none => rw [hv] at h; cases h
              | some p =>
                obtain ⟨v, rest2⟩ := p
                have hv' := ihv _ _ _ (by simp only [List.length_cons]; omega) hv
                have hl2 := (parse_length f).1 _ _ hv
                simp only [List.length_cons] at hl2
                rw [hv] at h
                rw [hv']
                simp only at h ⊢
                cases hi : parseItems f rest2 with
                | none => rw [hi] at h; cases h
                | some q =>
                  have hi' := ihi _ _ _ (by omega) hi
                  rw [hi] at h
                  rw [hi']
                  exact h
          rw [if_neg h5] at h ⊢
          by_cases h6 : c = '\x7b'
          · rw [if_pos h6] at h ⊢
            have hs1 := skipSpace_length rest
            cases hskip1 : skipSpace rest with
            | nil => simp only [hskip1] at h; cases h
            | cons d rest1 =>
              simp only [hskip1] at h hs1 ⊢
              simp only [List.length_cons] at hs1
              by_cases h7 : d = '\x7d'
              · rw [if_pos h7] at h ⊢; exact h
              rw [if_neg h7] at h ⊢
              cases hv : parseMember f (d :: rest1) with
              | none => rw [hv] at h; cases h
              | some p =>
                obtain ⟨v, rest2⟩ := p
                have hv' := ihm _ _ _ (by simp only [List.length_cons]; omega) hv
                have hl2 := (parse_length f).2.2.1 _ _ hv
                simp only [List.length_cons] at hl2
                rw [hv] at h
                rw [hv']
                simp only at h ⊢
                cases hi : parseMembers f rest2 with
                | none => rw [hi] at h; cases h
                | some q =>
                  have hi' := ihms _ _ _ (by omega) hi
                  rw [hi] at h
                  rw [hi']
                  exact h
          · rw [if_neg h6] at h ⊢; exact h
    · cases f with
      | zero => simp [parseItems] at h
      | succ f =>
        rw [parseItems] at h ⊢
        have hs := skipSpace_length cs
        cases hskip : skipSpace cs with
        | nil => simp only [hskip] at h; cases h
        | cons c rest =>
          simp only [hskip] at h hs ⊢
          simp only [List.length_cons] at hs
          by_cases h1 : c = ']'
          · rw [if_pos h1] at h ⊢; exact h
          rw [if_neg h1] at h ⊢
          by_cases h2 : c = ','
          · rw [if_pos h2] at h ⊢
            cases hv : parseValue f rest with
            | none => rw [hv] at h; cases h
            | some p =>
              obtain ⟨v, rest2⟩ := p
              have hv' := ihv _ _ _ (by omega) hv
              have hl2 := (parse_length f).1 _ _ hv
              simp only [List.length_cons] at hl2
              rw [hv] at h
              rw [hv']
              simp only at h ⊢
              cases hi : parseItems f rest2 with
              | none => rw [hi] at h; cases h
              | some q =>
                have hi' := ihi _ _ _ (by omega) hi
                rw [hi] at h
                rw [hi']
                exact h
          · rw [if_neg h2] at h; cases h
    · cases f with
      | zero => simp [parseMember] at h
      | succ f =>
        rw [parseMember] at h ⊢
        have hs := skipSpace_length cs
        cases hskip : skipSpace cs with
        | nil => simp only [hskip] at h; cases h
        | cons c rest =>
          simp only [hskip] at h hs ⊢
          simp only [List.length_cons] at hs
          by_cases h1 : c = '"'
          · rw [if_pos h1] at h ⊢
            cases hk : parseChars none rest with
            | none => rw [hk] at h; cases h
            | some p =>
              obtain ⟨k, rest1⟩ := p
              have hl1 := parseChars_length rest.length rest (Nat.le_refl _) _ _ hk
              rw [hk] at h
              simp only at h hl1 ⊢
              have hs1 := skipSpace_length rest1
              cases hskip1 : skipSpace rest1 with
              | nil => simp only [hskip1] at h; cases h
              | cons colon rest2 =>
                simp only [hskip1] at h hs1 ⊢
                simp only [List.length_cons] at hs1
                by_cases h2 : colon = ':'
                · rw [if_pos h2] at h ⊢
                  cases hv : parseValue f rest2 with
                  | none => rw [hv] at h; cases h
                  | some q =>
                    have hv' := ihv _ _ _ (by omega) hv
                    rw [hv] at h
                    rw [hv']
                    exact h
                · rw [if_neg h2] at h; cases h
          · rw [if_neg h1] at h; cases h
    · cases f with
      | zero => simp [parseMembers] at h
      | succ f =>
        rw [parseMembers] at h ⊢
        have hs := skipSpace_length cs
        cases hskip : skipSpace cs with
        | nil => simp only [hskip] at h; cases h
        | cons c rest =>
          simp only [hskip] at h hs ⊢
          simp only [List.length_cons] at hs
          by_cases h1 : c = '\x7d'
          · rw [if_pos h1] at h ⊢; exact h
          rw [if_neg h1] at h ⊢
          by_cases h2 : c = ','
          · rw [if_pos h2] at h ⊢
            cases hv : parseMember f rest with
            | none => rw [hv] at h; cases h
            | some p =>
              obtain ⟨v, rest2⟩ := p
              have hv' := ihm _ _ _ (by omega) hv
              have hl2 := (parse_length f).2.2.1 _ _ hv
              simp only [List.length_cons] at hl2
              rw [hv] at h
              rw [hv']
              simp only at h ⊢
              cases hi : parseMembers f rest2 with
              | none => rw [hi] at h; cases h
              | some q =>
                have hi' := ihms _ _ _ (by omega) hi
                rw [hi] at h
                rw [hi']
                exact h
          · rw [if_neg h2] at h; cases h

/-- The fuel `parse` gives the parser is enough: a text that the parser reads as one
value followed by white space only, with any amount of fuel, is a text of that value
for `parse`. -/
theorem parse_complete (data : String) (fuel : Nat) (v : JSON) (rest : List Char)
    (h : parseValue fuel data.data = some (v, rest)) (hrest : skipSpace rest = []) :
    parse data = some v := by
  unfold parse
  have hlen : data.length = data.data.length := rfl
  rw [hlen, (parse_fuel data.data.length).1 data.data fuel (v, rest) (Nat.le_refl _) h]
  simp [hrest]

end json
